import Mathlib

/-!
Verification development for the rz-probana binary abstract-interpretation
engine, modelled from its specification. The repository itself ships only
the compiled-program fixtures (C sources under `bda/tests` and
`rzil_abstr`); the engine that analyzes them is external, so every
engine-side definition below is modelled from the specification text and
marked as such in its doc comment. The fixture functions themselves
(`bar`, `run`, `f_mem_arg`, `level_0`, ...) are embedded from their C
sources as programs of the modelled engine's lifted representation.
-/

namespace Probana

/-- Modelled from the spec: the AbstractValue lattice element of the value
domain (`Undefined` bottom, `Top` top, `Const(width, literal)`,
`StackRef(frameId, offset)`, `HeapRef(allocId, offset)`, and
`FuncPtr(set of callable targets | Unknown)`, with `none` standing for
`Unknown`). -/
inductive AbstractValue : Type where
  | undef : AbstractValue
  | top : AbstractValue
  | const (width : Nat) (literal : Nat) : AbstractValue
  | stackRef (frameId : Nat) (offset : Nat) : AbstractValue
  | heapRef (allocId : Nat) (offset : Nat) : AbstractValue
  | funcPtr (targets : Option (Finset Nat)) : AbstractValue
deriving DecidableEq

namespace AbstractValue

/-- Modelled from the spec: the lattice `join`. Joining two distinct
`Const` values, or a pointer with a non-matching pointer/scalar, yields
`Top`; joining `StackRef`/`HeapRef` with themselves at equal
(frameId/allocId, offset) is identity; any join with `Undefined` yields
the other operand; any join with `Top` yields `Top`; `FuncPtr` sets join
by union, with `Unknown` absorbing within `FuncPtr`. -/
def join : AbstractValue → AbstractValue → AbstractValue
  | .undef, b => b
  | a, .undef => a
  | .top, _ => .top
  | _, .top => .top
  | .const w1 l1, .const w2 l2 =>
      if w1 = w2 ∧ l1 = l2 then .const w1 l1 else .top
  | .stackRef f1 o1, .stackRef f2 o2 =>
      if f1 = f2 ∧ o1 = o2 then .stackRef f1 o1 else .top
  | .heapRef a1 o1, .heapRef a2 o2 =>
      if a1 = a2 ∧ o1 = o2 then .heapRef a1 o1 else .top
  | .funcPtr none, .funcPtr _ => .funcPtr none
  | .funcPtr _, .funcPtr none => .funcPtr none
  | .funcPtr (some s), .funcPtr (some t) => .funcPtr (some (s ∪ t))
  | _, _ => .top

/-- Modelled from the spec: the join of two `FuncPtr` target sets, with
`Unknown` (`none`) absorbing and finite sets joined by union. -/
def fpJoin : Option (Finset Nat) → Option (Finset Nat) → Option (Finset Nat)
  | none, _ => none
  | _, none => none
  | some s, some t => some (s ∪ t)

/-- Modelled from the spec: `widen(old, new)`, applied at loop-header
program points: if `new` does not exceed `old`, keep `old`; otherwise
widen the growing dimension to `Top` rather than iterating unboundedly. -/
def widen (old new : AbstractValue) : AbstractValue :=
  if join old new = old then old else .top

/-- Modelled from the spec: arithmetic transfer for addition. Exact on two
`Const` operands of one width; pointer-plus-constant adjusts the
`StackRef`/`HeapRef` offset exactly; anything else involving `Top` or a
pointer base yields `Top`; an `Undefined` operand stays `Undefined`. -/
def aAdd : AbstractValue → AbstractValue → AbstractValue
  | .undef, _ => .undef
  | _, .undef => .undef
  | .const w1 l1, .const w2 l2 =>
      if w1 = w2 then .const w1 ((l1 + l2) % 2 ^ w1) else .top
  | .const _ l, .stackRef f o => .stackRef f (o + l)
  | .stackRef f o, .const _ l => .stackRef f (o + l)
  | .const _ l, .heapRef a o => .heapRef a (o + l)
  | .heapRef a o, .const _ l => .heapRef a (o + l)
  | _, _ => .top

/-- Modelled from the spec: bitwise-and transfer, exact on `Const`s. -/
def aBitAnd : AbstractValue → AbstractValue → AbstractValue
  | .undef, _ => .undef
  | _, .undef => .undef
  | .const w1 l1, .const w2 l2 =>
      if w1 = w2 then .const w1 ((l1 &&& l2) % 2 ^ w1) else .top
  | _, _ => .top

/-- Modelled from the spec: bitwise-or transfer, exact on `Const`s. -/
def aBitOr : AbstractValue → AbstractValue → AbstractValue
  | .undef, _ => .undef
  | _, .undef => .undef
  | .const w1 l1, .const w2 l2 =>
      if w1 = w2 then .const w1 ((l1 ||| l2) % 2 ^ w1) else .top
  | _, _ => .top

/-- Modelled from the spec: bitwise-complement transfer, exact on a
`Const` (the complement of `l` at width `w` is `2^w - 1 - l`). -/
def aBitNot : AbstractValue → AbstractValue
  | .undef => .undef
  | .const w l => .const w (2 ^ w - 1 - l)
  | _ => .top

/-- Modelled from the spec: less-than comparison transfer, exact on
`Const`s (a one-bit boolean result), `Top` otherwise. -/
def aLt : AbstractValue → AbstractValue → AbstractValue
  | .undef, _ => .undef
  | _, .undef => .undef
  | .const w1 l1, .const w2 l2 =>
      if w1 = w2 then .const 1 (if l1 < l2 then 1 else 0) else .top
  | _, _ => .top

/-- Modelled from the spec: equality comparison transfer, exact on
`Const`s, `Top` otherwise. -/
def aEq : AbstractValue → AbstractValue → AbstractValue
  | .undef, _ => .undef
  | _, .undef => .undef
  | .const w1 l1, .const w2 l2 =>
      if w1 = w2 then .const 1 (if l1 = l2 then 1 else 0) else .top
  | _, _ => .top

/-- Modelled from the spec: the Indirect Call Resolver's lookup of a
statically declared function-pointer table at an abstract index. A
concrete in-range `Const` index resolves to the singleton target; an
out-of-range one to the empty candidate set; an index widened to `Top`
(or any non-constant index) resolves to the full statically-declared
candidate set. -/
def tableResolve (entries : List Nat) : AbstractValue → AbstractValue
  | .undef => .undef
  | .const _ i =>
      if i < entries.length then .funcPtr (some {entries.getD i 0})
      else .funcPtr (some ∅)
  | _ => .funcPtr (some entries.toFinset)

end AbstractValue

open AbstractValue

/-- Modelled from the spec: a storage Location — a register, a stack slot
`(frameId, offset)`, or a heap cell `(allocId, offset)`; the Store's key,
with structural equality on the tuple. -/
inductive Location : Type where
  | reg (n : Nat) : Location
  | stackSlot (frameId : Nat) (offset : Nat) : Location
  | heapCell (allocId : Nat) (offset : Nat) : Location
deriving DecidableEq

/-- Modelled from the spec: the non-fatal diagnostic kinds accumulated by
the engine and returned alongside results (`OutOfBoundsAccess`,
`UnresolvedIndirectTarget`, `RecursionLimitExceeded`). -/
inductive Diagnostic : Type where
  | outOfBoundsAccess (allocId : Nat) (offset : Nat) : Diagnostic
  | unresolvedIndirectTarget (site : Nat) : Diagnostic
  | recursionLimitExceeded (callee : Nat) : Diagnostic
deriving DecidableEq

/-- Modelled from the spec: the Store, a finite mapping from Location to
AbstractValue (one instance per function/context/program point),
represented as an association list. -/
abbrev ListStore := List (Location × AbstractValue)

/-- Modelled from the spec: `read(loc)` never fails — `Undefined` is
returned for a location not yet written. -/
def readStore (s : ListStore) (l : Location) : AbstractValue :=
  match s.find? (fun p => p.1 == l) with
  | some p => p.2
  | none => .undef

def containsKey (s : ListStore) (l : Location) : Bool :=
  s.any (fun p => p.1 == l)

/-- Modelled from the spec: `write(loc, value)` replaces the value at
`loc` for this program point. -/
def writeStore (s : ListStore) (l : Location) (v : AbstractValue) :
    ListStore :=
  if containsKey s l then s.map (fun p => if p.1 == l then (l, v) else p)
  else s ++ [(l, v)]

def writeAll (s : ListStore) : List (Location × AbstractValue) → ListStore
  | [] => s
  | (l, v) :: rest => writeAll (writeStore s l v) rest

def isMemLoc : Location → Bool
  | .reg _ => false
  | _ => true

/-- Modelled from the spec: the conservative effect of writing through a
pointer the engine knows nothing about — every tracked stack/heap cell
may be overwritten, so each is set to `Top`. -/
def clobberMem (s : ListStore) : ListStore :=
  s.map (fun p => if isMemLoc p.1 then (p.1, AbstractValue.top) else p)

/-- Modelled from the spec: `mergeInto` joins one Store into another
entry-by-entry, creating missing entries as `Undefined` joined with the
source value (that is, the source value itself). -/
def joinStore (s1 s2 : ListStore) : ListStore :=
  s1.map (fun p => (p.1, join p.2 (readStore s2 p.1))) ++
    s2.filter (fun p => ! containsKey s1 p.1)

/-- Modelled from the spec: pointwise widening of a loop-header Store
against the Store flowing back over the loop's back edge; entries first
seen inside the loop body are kept as first observed. -/
def widenStore (s1 s2 : ListStore) : ListStore :=
  s1.map (fun p => (p.1, widen p.2 (readStore s2 p.1))) ++
    s2.filter (fun p => ! containsKey s1 p.1)

/-- Modelled from the spec: the Heap Model's registry of
AllocationObjects, mapping `allocId` to its `sizeFact`
(`Const` or `Top`). -/
abbrev AllocTable := List (Nat × AbstractValue)

def readAlloc (t : AllocTable) (a : Nat) : Option AbstractValue :=
  match t.find? (fun p => p.1 == a) with
  | some p => some p.2
  | none => none

def writeAlloc (t : AllocTable) (a : Nat) (v : AbstractValue) : AllocTable :=
  if t.any (fun p => p.1 == a) then
    t.map (fun p => if p.1 == a then (a, v) else p)
  else t ++ [(a, v)]

def joinAllocs (t1 t2 : AllocTable) : AllocTable :=
  t1.map (fun p =>
    (p.1, match readAlloc t2 p.1 with
          | some v => join p.2 v
          | none => p.2)) ++
    t2.filter (fun p => ! t1.any (fun q => q.1 == p.1))

/-- Modelled from the spec: the full analysis state the Fixpoint Engine
threads through a function — the Store, the Heap Model's allocation
registry, the current/next stack frame ids, the joined return value, the
accumulated non-fatal diagnostics, the trace of invoked (cloned) callees,
the per-site resolved indirect-call target sets, and a flag that is
cleared only if the engine's iteration budget was exhausted. -/
structure AState : Type where
  store : ListStore
  allocs : AllocTable
  curFrame : Nat
  nextFrame : Nat
  retVal : AbstractValue
  diags : List Diagnostic
  calls : List Nat
  resolved : List (Nat × List Nat)
  ok : Bool
deriving DecidableEq

/-- Accumulation of two diagnostic/trace lists without duplicates (the
engine reports each accumulated condition once). -/
def unionList {α : Type} [DecidableEq α] (a b : List α) : List α :=
  a ++ b.filter (fun x => ! a.contains x)

/-- Modelled from the spec: joining the post-states of two explored
branches at their merge point — Stores and allocation facts are joined
entry-by-entry, return values are joined, and diagnostics, call traces
and resolution records are accumulated. -/
def joinState (a b : AState) : AState where
  store := joinStore a.store b.store
  allocs := joinAllocs a.allocs b.allocs
  curFrame := a.curFrame
  nextFrame := max a.nextFrame b.nextFrame
  retVal := join a.retVal b.retVal
  diags := unionList a.diags b.diags
  calls := unionList a.calls b.calls
  resolved := unionList a.resolved b.resolved
  ok := a.ok && b.ok

/-- Modelled from the spec: widening a loop-header state against the
state produced by one more pass of the loop body (diagnostics and traces
accumulated in the body pass are kept). -/
def widenState (a b : AState) : AState :=
  { b with
    store := widenStore a.store b.store
    allocs := joinAllocs a.allocs b.allocs }

/-- Modelled from the spec: the calling convention's register count, part
of the calling-convention description the lifter supplies (the fixtures
are compiled for a convention passing six integer arguments in
registers). -/
def regCount : Nat := 6

/-- Modelled from the spec: the Location the calling convention assigns
to argument `i` — a register Location for arguments up to the register
count, and a `StackRef`-designated stack slot of the callee's frame at
strictly increasing offsets (eight bytes per slot) for the rest. -/
def argLoc (rc : Nat) (frameId : Nat) (i : Nat) : Location :=
  if i < rc then .reg i else .stackSlot frameId (8 * (i - rc))

/-- Modelled from the spec: `classifyArgs` binds each argument value in
source order to its convention-assigned Location. -/
def classifyArgs (rc : Nat) (frameId : Nat)
    (vals : List AbstractValue) : List (Location × AbstractValue) :=
  (List.range vals.length).zip vals |>.map
    (fun p => (argLoc rc frameId p.1, p.2))

/-- Modelled from the spec: the typed operand expressions of the lifted
representation the engine consumes: constants, the recognized
nondeterministic-input source (which immediately yields `Top`),
location reads, argument and frame-address references, loads through a
pointer value, arithmetic and comparisons, and the Indirect Call
Resolver's function-pointer-table lookup. -/
inductive Expr : Type where
  | lit (width literal : Nat) : Expr
  | inputE : Expr
  | locE (l : Location) : Expr
  | argE (i : Nat) : Expr
  | frameAddr (off : Nat) : Expr
  | loadE (base : Expr) (off : Nat) : Expr
  | addE (e1 e2 : Expr) : Expr
  | andE (e1 e2 : Expr) : Expr
  | orE (e1 e2 : Expr) : Expr
  | notE (e : Expr) : Expr
  | ltE (e1 e2 : Expr) : Expr
  | eqE (e1 e2 : Expr) : Expr
  | tableE (entries : List Nat) (idx : Expr) : Expr
deriving DecidableEq

/-- Modelled from the spec: the Heap Model's bounds policy — an access at
an offset at or beyond a `Const` sizeFact is not rejected but reported as
an `OutOfBoundsAccess` diagnostic. -/
def oobCheck (allocs : AllocTable) (a off : Nat) : List Diagnostic :=
  match readAlloc allocs a with
  | some (.const _ sz) => if sz ≤ off then [.outOfBoundsAccess a off] else []
  | _ => []

/-- Modelled from the spec: abstract evaluation of an operand expression
in the current state, returning the AbstractValue together with any
diagnostics (out-of-bounds loads are still treated as valid reads and
continue with `Top`). -/
def evalE (st : AState) : Expr → AbstractValue × List Diagnostic
  | .lit w l => (.const w (l % 2 ^ w), [])
  | .inputE => (.top, [])
  | .locE l => (readStore st.store l, [])
  | .argE i => (readStore st.store (argLoc regCount st.curFrame i), [])
  | .frameAddr off => (.stackRef st.curFrame off, [])
  | .loadE base off =>
      let r := evalE st base
      match r.1 with
      | .undef => (.undef, r.2)
      | .stackRef f o => (readStore st.store (.stackSlot f (o + off)), r.2)
      | .heapRef a o =>
          let ds := oobCheck st.allocs a (o + off)
          (if ds.isEmpty then readStore st.store (.heapCell a (o + off))
           else .top, r.2 ++ ds)
      | _ => (.top, r.2)
  | .addE e1 e2 =>
      let r1 := evalE st e1
      let r2 := evalE st e2
      (aAdd r1.1 r2.1, r1.2 ++ r2.2)
  | .andE e1 e2 =>
      let r1 := evalE st e1
      let r2 := evalE st e2
      (aBitAnd r1.1 r2.1, r1.2 ++ r2.2)
  | .orE e1 e2 =>
      let r1 := evalE st e1
      let r2 := evalE st e2
      (aBitOr r1.1 r2.1, r1.2 ++ r2.2)
  | .notE e =>
      let r := evalE st e
      (aBitNot r.1, r.2)
  | .ltE e1 e2 =>
      let r1 := evalE st e1
      let r2 := evalE st e2
      (aLt r1.1 r2.1, r1.2 ++ r2.2)
  | .eqE e1 e2 =>
      let r1 := evalE st e1
      let r2 := evalE st e2
      (aEq r1.1 r2.1, r1.2 ++ r2.2)
  | .tableE entries idx =>
      let r := evalE st idx
      (tableResolve entries r.1, r.2)

def evalArgs (st : AState) : List Expr →
    List AbstractValue × List Diagnostic
  | [] => ([], [])
  | e :: rest =>
      let r := evalE st e
      let rs := evalArgs st rest
      (r.1 :: rs.1, r.2 ++ rs.2)

/-- Modelled from the spec: the identity of a memory object a pointer may
designate — a stack frame or a heap allocation. -/
inductive MemId : Type where
  | stk (frameId : Nat) : MemId
  | hp (allocId : Nat) : MemId
deriving DecidableEq

def locMemId : Location → Option MemId
  | .reg _ => none
  | .stackSlot f _ => some (.stk f)
  | .heapCell a _ => some (.hp a)

def valMemIds : AbstractValue → Option (List MemId)
  | .top => none
  | .stackRef f _ => some [.stk f]
  | .heapRef a _ => some [.hp a]
  | _ => some []

def pushId (ids : List MemId) (m : MemId) : List MemId :=
  if m ∈ ids then ids else ids ++ [m]

/-- Modelled from the spec: the seeds of the pointers reachable from a
call's arguments (`none` when an argument is `Top`, meaning every object
may be reached). -/
def seedIds : List AbstractValue → Option (List MemId)
  | [] => some []
  | v :: rest =>
      match valMemIds v, seedIds rest with
      | some a, some b => some (a.foldl pushId b)
      | _, _ => none

def reachOnce (store : ListStore) (acc : List MemId) :
    Option (List MemId) :=
  store.foldl
    (fun racc p =>
      match racc with
      | none => none
      | some ids =>
          match locMemId p.1 with
          | some i =>
              if i ∈ acc then
                match p.2 with
                | .top => none
                | .stackRef f _ => some (pushId ids (.stk f))
                | .heapRef a _ => some (pushId ids (.hp a))
                | _ => some ids
              else some ids
          | none => some ids)
    (some acc)

/-- Modelled from the spec: the transitive closure of the objects
reachable through memory from a set of seed objects (`none` meaning every
object is reachable). -/
def reachIds (store : ListStore) : Nat → Option (List MemId) →
    Option (List MemId)
  | _, none => none
  | 0, some acc => some acc
  | n + 1, some acc =>
      match reachOnce store acc with
      | none => none
      | some acc2 =>
          if acc2 = acc then some acc else reachIds store n (some acc2)

/-- Modelled from the spec: the conservative model of a call whose target
is unresolved or has no available body — the call is not skipped: it may
write `Top` through every pointer reachable from its arguments, returns
`Top` into its destination, and records a non-fatal
`UnresolvedIndirectTarget` condition instead of aborting. -/
def opaqueCall (st : AState) (dst : Option Location)
    (vals : List AbstractValue) (site : Nat) : AState :=
  let reach := reachIds st.store (st.store.length + 1) (seedIds vals)
  let store1 :=
    match reach with
    | none => clobberMem st.store
    | some ids =>
        st.store.map (fun p =>
          match locMemId p.1 with
          | some i => if i ∈ ids then (p.1, AbstractValue.top) else p
          | none => p)
  let store2 :=
    match dst with
    | some d => writeStore store1 d .top
    | none => store1
  { st with
    store := store2
    diags := st.diags ++ [.unresolvedIndirectTarget site] }

/-- Modelled from the spec: the shared, non-cloned, context-insensitive
summary used once the bounded cloning depth `K` is reached — analyzed
with `Top` for all context-dependent inputs, its memoized result returns
`Top`, may affect any memory reachable by the callee, and the cutoff is
reported as a non-fatal `RecursionLimitExceeded` condition. -/
def applySummary (st : AState) (dst : Option Location) (f : Nat) : AState :=
  let store1 := clobberMem st.store
  let store2 :=
    match dst with
    | some d => writeStore store1 d .top
    | none => store1
  { st with
    store := store2
    diags := st.diags ++ [.recursionLimitExceeded f] }

/-- The ascending enumeration of a finite candidate set, used by the
Indirect Call Resolver to visit each resolved target once. -/
def fsList (s : Finset Nat) : List Nat :=
  (List.range (s.fold Nat.max 0 id + 1)).filter (fun x => decide (x ∈ s))

/-- Modelled from the spec: the statements of the lifted representation —
register assignment, a store through a pointer value, a recognized
allocation call (the Heap Model's `onCall`), direct and indirect calls,
two-way branches, loops carrying the engine's configured unroll bound,
and returns. -/
inductive Stmt : Type where
  | assign (dst : Location) (e : Expr) : Stmt
  | storeTo (base : Expr) (off : Nat) (e : Expr) : Stmt
  | allocS (dst : Location) (size : Expr) (allocId : Nat) : Stmt
  | call (dst : Option Location) (f : Nat) (args : List Expr)
      (site : Nat) : Stmt
  | icall (dst : Option Location) (fptr : Expr) (args : List Expr)
      (site : Nat) : Stmt
  | ite (cond : Expr) (thn els : List Stmt) : Stmt
  | while (bound : Nat) (cond : Expr) (body : List Stmt) : Stmt
  | ret (e : Expr) : Stmt

/-- Modelled from the spec: the lifted program — each function id maps to
its body, or to `none` when its code is outside the analyzed scope
(unmapped). -/
abbrev Program := Nat → Option (List Stmt)

/-- Modelled from the spec: folding the callee's effects back into the
caller at the call's successor point — the callee's frame slots are
discarded and registers restored to the caller's values, while writes to
heap cells and to other frames' slots (escaped pointee mutations) remain
visible. -/
def foldBack (callerStore calleeStore : ListStore) (fr : Nat) :
    ListStore :=
  calleeStore.map (fun p =>
    match p.1 with
    | .reg _ => (p.1, readStore callerStore p.1)
    | .stackSlot f _ =>
        if f = fr then (p.1, readStore callerStore p.1) else p
    | .heapCell _ _ => p)

/-- Modelled from the spec: the Fixpoint Engine driving one function's
lifted statements, with the Interprocedural Call Handler inlined: `fuel`
is the engine's overall iteration budget (the `ok` flag is cleared if it
is exhausted), `db` the remaining context-cloning depth before the
recursion cutoff redirects calls to the shared summary. Branches on
conditions that are not concrete explore both successors and join their
post-states; loops unroll concretely up to their bound and then iterate
the widened header state to a fixpoint. -/
def exec (prog : Program) : Nat → Nat → List Stmt → AState → AState
  | 0, _, _, st => { st with ok := false }
  | _ + 1, _, [], st => st
  | fuel + 1, db, s :: rest, st =>
    let callFn : Nat → AState → Option Location → Nat →
        List AbstractValue → Nat → AState := fun db1 st1 dst f vals site =>
      match prog f with
      | none => opaqueCall st1 dst vals site
      | some body =>
          match db1 with
          | 0 => applySummary st1 dst f
          | db2 + 1 =>
              let fr := st1.nextFrame
              let calleeSt :=
                { st1 with
                  store := writeAll st1.store (classifyArgs regCount fr vals)
                  curFrame := fr
                  nextFrame := fr + 1
                  retVal := .undef
                  calls := st1.calls ++ [f] }
              let res := exec prog fuel db2 body calleeSt
              let store1 := foldBack st1.store res.store fr
              let store2 :=
                match dst with
                | some d => writeStore store1 d res.retVal
                | none => store1
              { res with
                store := store2
                curFrame := st1.curFrame
                retVal := st1.retVal }
    match s with
    | .assign dst e =>
        let r := evalE st e
        exec prog fuel db rest
          { st with store := writeStore st.store dst r.1,
                    diags := st.diags ++ r.2 }
    | .storeTo base off e =>
        let rb := evalE st base
        let rv := evalE st e
        let st1 := { st with diags := st.diags ++ rb.2 ++ rv.2 }
        let st2 :=
          match rb.1 with
          | .undef => st1
          | .stackRef f o =>
              { st1 with
                store := writeStore st1.store (.stackSlot f (o + off)) rv.1 }
          | .heapRef a o =>
              { st1 with
                store := writeStore st1.store (.heapCell a (o + off)) rv.1
                diags := st1.diags ++ oobCheck st1.allocs a (o + off) }
          | _ => { st1 with store := clobberMem st1.store }
        exec prog fuel db rest st2
    | .allocS dst size aid =>
        let r := evalE st size
        let fact :=
          match r.1 with
          | .const w l => AbstractValue.const w l
          | _ => AbstractValue.top
        exec prog fuel db rest
          { st with
            store := writeStore st.store dst (.heapRef aid 0)
            allocs := writeAlloc st.allocs aid fact
            diags := st.diags ++ r.2 }
    | .ite c thn els =>
        let r := evalE st c
        let st1 := { st with diags := st.diags ++ r.2 }
        let st2 :=
          match r.1 with
          | .undef => st1
          | .const _ 0 => exec prog fuel db els st1
          | .const _ (_ + 1) => exec prog fuel db thn st1
          | _ =>
              joinState (exec prog fuel db thn st1)
                (exec prog fuel db els st1)
        exec prog fuel db rest st2
    | .while bound c body =>
        let r := evalE st c
        let st1 := { st with diags := st.diags ++ r.2 }
        let widenStep : AState → AState := fun s1 =>
          let stb := exec prog fuel db body s1
          let stw := widenState s1 stb
          if stw.store = s1.store ∧ stw.allocs = s1.allocs then
            exec prog fuel db rest stw
          else exec prog fuel db (.while 0 c body :: rest) stw
        match r.1 with
        | .undef => exec prog fuel db rest st1
        | .const _ 0 => exec prog fuel db rest st1
        | .const _ (_ + 1) =>
            match bound with
            | b2 + 1 => exec prog fuel db (body ++ .while b2 c body :: rest) st1
            | 0 => widenStep st1
        | _ => widenStep st1
    | .ret e =>
        let r := evalE st e
        exec prog fuel db rest
          { st with retVal := join st.retVal r.1, diags := st.diags ++ r.2 }
    | .call dst f args site =>
        let ra := evalArgs st args
        let st1 := { st with diags := st.diags ++ ra.2 }
        exec prog fuel db rest (callFn db st1 dst f ra.1 site)
    | .icall dst fe args site =>
        let rf := evalE st fe
        let ra := evalArgs st args
        let st1 := { st with diags := st.diags ++ rf.2 ++ ra.2 }
        let st2 :=
          match rf.1 with
          | .undef => st1
          | .funcPtr (some s) =>
              let ts := fsList s
              match ts with
              | [] => opaqueCall st1 dst ra.1 site
              | t :: moreTs =>
                  let st3 := { st1 with resolved := st1.resolved ++ [(site, ts)] }
                  moreTs.foldl
                    (fun acc t2 => joinState acc (callFn db st3 dst t2 ra.1 site))
                    (callFn db st3 dst t ra.1 site)
          | _ => opaqueCall st1 dst ra.1 site
        exec prog fuel db rest st2

/-- Modelled from the spec: the initial analysis state of a top-level
entry — an empty Store and allocation registry, frame 0 current, no
diagnostics, and the iteration budget not yet exhausted. -/
def initState : AState :=
  { store := [], allocs := [], curFrame := 0, nextFrame := 1,
    retVal := .undef, diags := [], calls := [], resolved := [], ok := true }

/-! ### Fixture programs, embedded from the repository's C sources

Function ids: `bar` 0, `foo` 1, `main` of `paper_dep_example` 2;
`function_0/1/2` of `icall.c` 10/11/12, its `run` 13; `f_mem_arg` 20,
`stack_mem_arg` 21; `level_1` 30, `level_0` 31, `main` of
`post_pass_ref_across_proc` 32; `main` of `post_loop_offsets` 40;
`function_0/1` of `unmapped_fcn_in_loop` 50/51 (unmapped — no body),
`recurse` 52, its `run` 53. `rand()` (through the fixture's `input()`
wrapper) is the recognized nondeterministic-input source and lifts to
`Expr.inputE`. -/

/-- `bar` from `bda/tests/bins/paper_dep_example.c`: writes 0 through its
pointer argument, under an unknown condition writes 1 and calls `foo`
with the cell's value, then under a second unknown condition returns the
cell's value or its bitwise complement. -/
def barBody : List Stmt :=
  [.storeTo (.argE 0) 0 (.lit 8 0),
   .ite .inputE
     [.storeTo (.argE 0) 0 (.lit 8 1),
      .call none 1 [.loadE (.argE 0) 0] 2]
     [],
   .ite .inputE
     [.ret (.loadE (.argE 0) 0)]
     [.ret (.notE (.loadE (.argE 0) 0))]]

/-- `foo` from `paper_dep_example.c`: `return malloc(p + (rand() % 100))`
— an allocation whose size involves the nondeterministic input. -/
def fooBody : List Stmt :=
  [.allocS (.reg 0) (.addE (.argE 0) .inputE) 90,
   .ret (.locE (.reg 0))]

/-- `main` from `paper_dep_example.c`: `char x; return bar(&x);` — the
local is address-taken, so it lives in `main`'s stack frame at offset 0
and its address is passed to `bar`. -/
def paperMainBody : List Stmt :=
  [.call (some (.reg 0)) 0 [.frameAddr 0] 1,
   .ret (.locE (.reg 0))]

def progPaperDep : Program := fun f =>
  if f = 0 then some barBody
  else if f = 1 then some fooBody
  else if f = 2 then some paperMainBody
  else none

/-- The engine's recovered result for `paper_dep_example`'s `main` (which
returns `bar(&x)`, so its return value is `bar`'s recovered return
value in that calling context). -/
def paperDepResult : AState :=
  exec progPaperDep 300 4 paperMainBody initState

/-- `run` from `rzil_abstr/c_src/tests/icall.c`: three sequential
indirect calls through the 3-element table `fcn_arr` at the concrete,
statically incremented indices 0, 1, 2 (`x` in register 10, `i` in
register 11, each call's result in register 12). -/
def icallRunBody : List Stmt :=
  [.assign (.reg 10) (.lit 32 0),
   .assign (.reg 11) (.lit 32 0),
   .icall (some (.reg 12)) (.tableE [10, 11, 12] (.locE (.reg 11))) [] 1,
   .assign (.reg 10) (.addE (.locE (.reg 10)) (.locE (.reg 12))),
   .assign (.reg 11) (.addE (.locE (.reg 11)) (.lit 32 1)),
   .icall (some (.reg 12)) (.tableE [10, 11, 12] (.locE (.reg 11))) [] 2,
   .assign (.reg 10) (.addE (.locE (.reg 10)) (.locE (.reg 12))),
   .assign (.reg 11) (.addE (.locE (.reg 11)) (.lit 32 1)),
   .icall (some (.reg 12)) (.tableE [10, 11, 12] (.locE (.reg 11))) [] 3,
   .assign (.reg 10) (.addE (.locE (.reg 10)) (.locE (.reg 12))),
   .ret (.locE (.reg 10))]

def progIcall : Program := fun f =>
  if f = 10 then some [.ret (.lit 32 0)]
  else if f = 11 then some [.ret (.lit 32 1)]
  else if f = 12 then some [.ret (.lit 32 2)]
  else if f = 13 then some icallRunBody
  else none

def icallResult : AState :=
  exec progIcall 300 4 icallRunBody initState

/-- `f_mem_arg` from `rzil_abstr/c_src/tests/stack_mem_arg.c`: returns
the sum of its thirty `size_t` arguments. -/
def fMemArgBody : List Stmt :=
  [.ret ((List.range 29).foldl
    (fun acc i => .addE acc (.argE (i + 1))) (.argE 0))]

/-- `stack_mem_arg` from `stack_mem_arg.c`: calls `f_mem_arg` with the
thirty constant arguments `0..29`. -/
def stackMemArgBody : List Stmt :=
  [.call (some (.reg 0)) 20 ((List.range 30).map (fun i => .lit 64 i)) 1,
   .ret (.locE (.reg 0))]

def progStackMemArg : Program := fun f =>
  if f = 20 then some fMemArgBody
  else if f = 21 then some stackMemArgBody
  else none

def stackMemArgResult : AState :=
  exec progStackMemArg 300 4 stackMemArgBody initState

/-- `level_1` from `bda/tests/bins/post_pass_ref_across_proc.c`:
`map[1] = v` through its pointer argument. -/
def level1Body : List Stmt :=
  [.storeTo (.argE 0) 1 (.argE 1)]

/-- `level_0` from `post_pass_ref_across_proc.c`: passes its pointer on
to `level_1` with `v + 2`, then writes `map[0] = v` itself. -/
def level0Body : List Stmt :=
  [.call none 30 [.argE 0, .addE (.argE 1) (.lit 64 2)] 2,
   .storeTo (.argE 0) 0 (.argE 1)]

/-- `main` from `post_pass_ref_across_proc.c`: allocates a two-element
object (allocId 7), calls `level_0(p, rand())`, and returns
`p[0] & p[1]` (cell offsets counted in `size_t` elements). -/
def refAcrossMainBody : List Stmt :=
  [.allocS (.reg 0) (.lit 64 2) 7,
   .call none 31 [.locE (.reg 0), .inputE] 1,
   .ret (.andE (.loadE (.locE (.reg 0)) 0) (.loadE (.locE (.reg 0)) 1))]

def progRefAcross : Program := fun f =>
  if f = 30 then some level1Body
  else if f = 31 then some level0Body
  else if f = 32 then some refAcrossMainBody
  else none

def refAcrossResult : AState :=
  exec progRefAcross 300 4 refAcrossMainBody initState

/-- `main` from `bda/tests/bins/post_loop_offsets.c`: allocates five
bytes (allocId 3), writes offsets 0–4 in a loop from the
nondeterministic input, then returns the bitwise-or of offsets 0–5 —
the last read being one past the end. -/
def loopOffsetsMainBody : List Stmt :=
  [.allocS (.reg 0) (.lit 64 5) 3,
   .assign (.reg 1) (.lit 64 0),
   .while 8 (.ltE (.locE (.reg 1)) (.lit 64 5))
     [.storeTo (.addE (.locE (.reg 0)) (.locE (.reg 1))) 0 .inputE,
      .assign (.reg 1) (.addE (.locE (.reg 1)) (.lit 64 1))],
   .ret (.orE (.orE (.orE (.orE (.orE
     (.loadE (.locE (.reg 0)) 0) (.loadE (.locE (.reg 0)) 1))
     (.loadE (.locE (.reg 0)) 2)) (.loadE (.locE (.reg 0)) 3))
     (.loadE (.locE (.reg 0)) 4)) (.loadE (.locE (.reg 0)) 5))]

def progLoopOffsets : Program := fun f =>
  if f = 40 then some loopOffsetsMainBody else none

def loopOffsetsResult : AState :=
  exec progLoopOffsets 300 4 loopOffsetsMainBody initState

/-- `run` from `bda/tests/test_bins/unmapped_fcn_in_loop.c`, lifted with
the engine's loop-unroll bound `B`: a two-iteration loop that calls
through the table of the two unmapped `function_0`/`function_1`, guards
`recurse()` behind `i == 3`, and accumulates `x += ptr[0]` (`x` register
10, `i` register 11, `ptr` register 12). -/
def unmappedRunBody (B : Nat) : List Stmt :=
  [.assign (.reg 10) (.lit 32 0),
   .assign (.reg 11) (.lit 64 0),
   .while B (.ltE (.locE (.reg 11)) (.lit 64 2))
     [.icall (some (.reg 12)) (.tableE [50, 51] (.locE (.reg 11))) [] 1,
      .ite (.eqE (.locE (.reg 11)) (.lit 64 3))
        [.call none 52 [] 2]
        [],
      .assign (.reg 10) (.addE (.locE (.reg 10)) (.loadE (.locE (.reg 12)) 0)),
      .assign (.reg 11) (.addE (.locE (.reg 11)) (.lit 64 1))],
   .ret (.locE (.reg 10))]

/-- `recurse` from `unmapped_fcn_in_loop.c`: calls `run()`. -/
def recurseBody : List Stmt :=
  [.call none 53 [] 3]

def progUnmapped (B : Nat) : Program := fun f =>
  if f = 52 then some recurseBody
  else if f = 53 then some (unmappedRunBody B)
  else none

/-- Analysis of `run` from `unmapped_fcn_in_loop.c` with loop-unroll
bound `B` and recursion-cloning depth 2. With `B = 1` the loop's second
iteration exceeds the bound, the header is widened (`i` becomes `Top`),
both unmapped table targets are resolved and opaquely called, the
`i == 3` guard becomes `Top`, and the `recurse`/`run` cycle is explored
up to the cloning depth and then cut off by the shared summary. With an
adequate bound (`B = 3`) the loop resolves concretely and the recursive
path is dead. -/
def unmappedResult (B : Nat) : AState :=
  exec (progUnmapped B) 2000 2 (unmappedRunBody B) initState

/-- Observable trace of one concrete execution of `run` from
`unmapped_fcn_in_loop.c`: the accumulated `x`, the number of
`recurse()` invocations, the number of indirect calls made, and the
loop-index values at which the body ran. The `oracle` supplies the
(uninitialized) values read through `ptr[0]`. -/
structure CTrace : Type where
  x : Nat
  recurseCalls : Nat
  icalls : Nat
  indices : List Nat
deriving DecidableEq

/-- The concrete semantics of `run`'s loop, embedded from the C source:
`for (i = 0; i < 2; ++i) { ptr = fcn_arr[i](); if (i == 3) recurse();
x += ptr[0]; }`. The loop terminates because `2 - i` decreases. -/
def runConcreteLoop (oracle : Nat → Nat) (i : Nat) (t : CTrace) : CTrace :=
  if h : i < 2 then
    runConcreteLoop oracle (i + 1)
      { x := (t.x + oracle i) % 2 ^ 32
        recurseCalls := if i = 3 then t.recurseCalls + 1 else t.recurseCalls
        icalls := t.icalls + 1
        indices := t.indices ++ [i] }
  else t
termination_by 2 - i
decreasing_by omega

/-- One concrete execution of `run` from `unmapped_fcn_in_loop.c`. -/
def runConcrete (oracle : Nat → Nat) : CTrace :=
  runConcreteLoop oracle 0 ⟨0, 0, 0, []⟩

/-! ### The intraprocedural worklist fixpoint machine

Modelled from the spec: the Fixpoint Engine as a state machine over one
function's CFG — states are per-block Stores plus a worklist; a step
processes one chosen worklist block by applying its transfer function
and propagating the resulting Store to each successor via `mergeInto`
(join), re-enqueuing exactly the blocks whose incoming Store strictly
changed. For the confluence statement the Store of a program point is
the total map from Locations to AbstractValues. -/

/-- Modelled from the spec: the Store of one program point of the
worklist machine, as a total map (unwritten locations are
`Undefined`). -/
abbrev Store3 := Location → AbstractValue

/-- The bottom Store: every location `Undefined` (not yet assigned). -/
def botStore : Store3 := fun _ => .undef

def joinStore3 (r1 r2 : Store3) : Store3 := fun l => join (r1 l) (r2 l)

/-- Modelled from the spec: pointwise widening of a loop header's
incoming Store against the Store a processed block propagates to it. -/
def widenStore3 (r1 r2 : Store3) : Store3 := fun l => widen (r1 l) (r2 l)

/-- Modelled from the spec: abstract evaluation of an operand expression
over a program point's total Store (the block-level machine carries no
allocation registry, so loads carry no bounds information here). -/
def evalPure (fr : Nat) (r : Store3) : Expr → AbstractValue
  | .lit w l => .const w (l % 2 ^ w)
  | .inputE => .top
  | .locE l => r l
  | .argE i => r (argLoc regCount fr i)
  | .frameAddr off => .stackRef fr off
  | .loadE base off =>
      match evalPure fr r base with
      | .undef => .undef
      | .stackRef f o => r (.stackSlot f (o + off))
      | .heapRef a o => r (.heapCell a (o + off))
      | _ => .top
  | .addE e1 e2 => aAdd (evalPure fr r e1) (evalPure fr r e2)
  | .andE e1 e2 => aBitAnd (evalPure fr r e1) (evalPure fr r e2)
  | .orE e1 e2 => aBitOr (evalPure fr r e1) (evalPure fr r e2)
  | .notE e => aBitNot (evalPure fr r e)
  | .ltE e1 e2 => aLt (evalPure fr r e1) (evalPure fr r e2)
  | .eqE e1 e2 => aEq (evalPure fr r e1) (evalPure fr r e2)
  | .tableE entries idx => tableResolve entries (evalPure fr r idx)

/-- Modelled from the spec: the straight-line operations of one basic
block of the lifted CFG — an assignment, a store through a pointer
value, or an opaque (body-less) call folded into the block. -/
inductive BInstr : Type where
  | assignB (dst : Location) (e : Expr) : BInstr
  | storeB (base : Expr) (off : Nat) (e : Expr) : BInstr
  | opaqueB (dst : Location) : BInstr

/-- A Store updated at one location. -/
def writeT (s : Location) (v : AbstractValue) (r : Store3) : Store3 :=
  fun l => if l = s then v else r l

/-- The conservative image of writing through an unknown pointer: every
memory (stack/heap) location becomes `Top`, registers are untouched. -/
def clobT (r : Store3) : Store3 :=
  fun l => if isMemLoc l then .top else r l

/-- Modelled from the spec: the transfer function of one block
operation. A store through `Undefined` (unreachable data) maps to the
bottom Store; a store through an unknown pointer conservatively sets
every memory location to `Top`; an opaque call sets its destination and
every memory location to `Top`. -/
def instrT (fr : Nat) (i : BInstr) (r : Store3) : Store3 :=
  match i with
  | .assignB d e => writeT d (evalPure fr r e) r
  | .storeB base off e =>
      match evalPure fr r base with
      | .undef => botStore
      | .stackRef f o =>
          writeT (.stackSlot f (o + off)) (evalPure fr r e) r
      | .heapRef a o =>
          writeT (.heapCell a (o + off)) (evalPure fr r e) r
      | _ => clobT r
  | .opaqueB d => writeT d .top (clobT r)

/-- Modelled from the spec: a block's transfer function — its operations
applied left to right. -/
def blockT (fr : Nat) (instrs : List BInstr) (r : Store3) : Store3 :=
  instrs.foldl (fun acc i => instrT fr i acc) r

/-- Modelled from the spec: whether a guarded CFG edge is taken under
the block's outgoing Store — a branch on a concrete `Const` condition
takes only the matching edge, a branch on an `Undefined` condition takes
neither, and a branch on any other (`Top`-like) condition takes both
successors. -/
def guardTaken (fr : Nat) (g : Option (Expr × Bool)) (r : Store3) : Bool :=
  match g with
  | none => true
  | some (e, pol) =>
      match evalPure fr r e with
      | .undef => false
      | .const _ l => decide (l ≠ 0) == pol
      | _ => true

/-- Modelled from the spec: one function's control-flow graph as the
Fixpoint Engine consumes it — `n` basic blocks of straight-line
operations, an entry block, guarded edges, the frame id its argument
and frame-address operands resolve to, the loop-header marking the
lifter derives from the CFG's structure, and the engine's configurable
iteration bound after which loop headers switch from join to widen. -/
structure CFG (n : Nat) : Type where
  entry : Fin n
  instrs : Fin n → List BInstr
  edge : Fin n → Fin n → Option (Option (Expr × Bool))
  frame : Nat
  header : Fin n → Bool
  bound : Nat

/-- Modelled from the spec: the Store an edge propagates into its
successor — the block's outgoing Store when the edge exists and its
guard is taken, and the bottom Store otherwise. -/
def flowTo {n : Nat} (G : CFG n) (b j : Fin n) (r : Store3) : Store3 :=
  match G.edge b j with
  | none => botStore
  | some g =>
      let out := blockT G.frame (G.instrs b) r
      if guardTaken G.frame g out then out else botStore

/-- Modelled from the spec: the worklist machine's state — the incoming
Store of every block, the worklist of blocks awaiting (re)processing,
and the per-block iteration count against which the loop-header
widening bound is checked. -/
structure WLState (n : Nat) : Type where
  stores : Fin n → Store3
  wl : Finset (Fin n)
  visits : Fin n → Nat

/-- Modelled from the spec: the initial state — the entry block holds
the caller-supplied argument bindings, every other block is unreached,
only the entry is enqueued, and no block has been iterated yet. -/
def initWL {n : Nat} (G : CFG n) (i0 : Store3) : WLState n where
  stores := fun j => if j = G.entry then i0 else botStore
  wl := {G.entry}
  visits := fun _ => 0

/-- Modelled from the spec: how a processed block `b`'s outgoing flow
enters block `j`'s incoming Store — via `mergeInto` (join) normally,
but a loop header applies `widen` instead of plain join once the
configurable iteration bound is exceeded (the header has been iterated
more than `bound` times). -/
def propagate {n : Nat} (G : CFG n) (s : WLState n) (b j : Fin n) :
    Store3 :=
  if G.header j = true ∧ G.bound < s.visits j then
    widenStore3 (s.stores j) (flowTo G b j (s.stores b))
  else joinStore3 (s.stores j) (flowTo G b j (s.stores b))

/-- Modelled from the spec: one worklist step — a block `b` is chosen
from the worklist and processed: each block's incoming Store receives
the Store `b`'s transfer propagates to it (by join, or by widen at a
loop header past the iteration bound), `b` leaves the worklist and its
iteration count rises, and exactly the blocks whose incoming Store
strictly changed are (re-)enqueued. Any valid worklist ordering picks
any enqueued block. -/
inductive WStep {n : Nat} (G : CFG n) : WLState n → WLState n → Prop where
  | step (s : WLState n) (b : Fin n) (hb : b ∈ s.wl)
      (stores2 : Fin n → Store3) (wl2 : Finset (Fin n))
      (visits2 : Fin n → Nat)
      (hs : stores2 = fun j => propagate G s b j)
      (hw : ∀ j, j ∈ wl2 ↔ ((j ∈ s.wl ∧ j ≠ b) ∨ stores2 j ≠ s.stores j))
      (hv : visits2 =
        fun j => if j = b then s.visits j + 1 else s.visits j) :
      WStep G s ⟨stores2, wl2, visits2⟩

/-- Modelled from the spec: a (finite) run of the worklist machine under
some valid ordering. -/
def WRun {n : Nat} (G : CFG n) : WLState n → WLState n → Prop :=
  Relation.ReflTransGen (WStep G)

/-- The lattice order induced by `join`. -/
def avLe (a b : AbstractValue) : Prop := join a b = b

def store3Le (r1 r2 : Store3) : Prop := ∀ l, avLe (r1 l) (r2 l)

/-- Run invariant: a worklist block is the entry or has already received
a non-bottom incoming Store. -/
def WInv2 {n : Nat} (G : CFG n) (s : WLState n) : Prop :=
  ∀ b ∈ s.wl, b = G.entry ∨ s.stores b ≠ botStore

/-- Run invariant: a block not awaiting processing is either still
unreached (and is not the entry), or its outgoing flows are already
folded into every successor's incoming Store. -/
def WInv3 {n : Nat} (G : CFG n) (s : WLState n) : Prop :=
  ∀ b, b ∉ s.wl →
    (s.stores b = botStore ∧ b ≠ G.entry) ∨
      ∀ j, store3Le (flowTo G b j (s.stores b)) (s.stores j)

/-- The state one worklist step produces when block `b` is processed
and `wl2` is the resulting worklist. -/
def wstepTo {n : Nat} (G : CFG n) (s : WLState n) (b : Fin n)
    (wl2 : Finset (Fin n)) : WLState n :=
  ⟨fun j => propagate G s b j, wl2,
    fun j => if j = b then s.visits j + 1 else s.visits j⟩

/-- A one-block CFG with no edges, no operations and no loop header
(the smallest function the worklist machine analyzes). -/
def confCFG : CFG 1 :=
  ⟨0, fun _ => [], fun _ _ => none, 0, fun _ => false, 0⟩

/-- The terminal state every run of the worklist machine on `confCFG`
reaches after processing the entry block once. -/
def confTerminal : WLState 1 :=
  wstepTo confCFG (initWL confCFG botStore) 0 ∅

/-- A three-block CFG exercising the loop-header widening rule: entry
block 0 assigns register 1 the function-pointer constant for target 11
and flows into blocks 1 and 2; block 1 reassigns register 1 the
function-pointer constant for target 22 and flows into block 2; block 2
is a loop header (self-loop) with iteration bound 0. Whether the two
incoming function-pointer flows meet block 2 by join (their union) or
by widen (`Top`) depends on whether block 2 was processed between
them. -/
def cexCFG : CFG 3 where
  entry := 0
  instrs := fun b =>
    if b = 0 then [.assignB (.reg 1) (.tableE [11] (.lit 32 0))]
    else if b = 1 then [.assignB (.reg 1) (.tableE [22] (.lit 32 0))]
    else []
  edge := fun b j =>
    if (b = 0 ∧ j = 1) ∨ (b = 0 ∧ j = 2) ∨ (b = 1 ∧ j = 2) ∨
        (b = 2 ∧ j = 2) then some none
    else none
  frame := 0
  header := fun b => decide (b = 2)
  bound := 0

/-- The common first step of both counterexample runs: the entry is
processed, blocks 1 and 2 become reached and enqueued. -/
def cexS1 : WLState 3 := wstepTo cexCFG (initWL cexCFG botStore) 0 {1, 2}

/-- First ordering, second step: the header block 2 is processed before
block 1's flow arrives, raising its iteration count past the bound. -/
def cexA2 : WLState 3 := wstepTo cexCFG cexS1 2 {1}

/-- First ordering, third step: block 1's flow now meets the header by
`widen`, which sends the grown function-pointer set to `Top`. -/
def cexA3 : WLState 3 := wstepTo cexCFG cexA2 1 {2}

/-- First ordering, final step: reprocessing the header is stable. -/
def cexA4 : WLState 3 := wstepTo cexCFG cexA3 2 ∅

/-- Second ordering, second step: block 1 is processed first, so its
flow meets the header by plain join — the precise union of the two
function-pointer sets. -/
def cexB2 : WLState 3 := wstepTo cexCFG cexS1 1 {2}

/-- Second ordering, final step: processing the header is stable. -/
def cexB3 : WLState 3 := wstepTo cexCFG cexB2 2 ∅

/-! ### Theorems and proofs -/

namespace AbstractValue

@[simp] lemma join_undef_left (b : AbstractValue) : join .undef b = b := by
  cases b <;> rfl

@[simp] lemma join_undef_right (a : AbstractValue) : join a .undef = a := by
  cases a <;> first | rfl | (rename_i t; cases t <;> rfl)

@[simp] lemma join_top_left (b : AbstractValue) : join .top b = .top := by
  cases b <;> rfl

@[simp] lemma join_top_right (a : AbstractValue) : join a .top = .top := by
  cases a <;> first | rfl | (rename_i t; cases t <;> rfl)

@[simp] lemma join_const_const (w1 l1 w2 l2 : Nat) :
    join (.const w1 l1) (.const w2 l2) =
      if w1 = w2 ∧ l1 = l2 then .const w1 l1 else .top := rfl

@[simp] lemma join_stackRef_stackRef (f1 o1 f2 o2 : Nat) :
    join (.stackRef f1 o1) (.stackRef f2 o2) =
      if f1 = f2 ∧ o1 = o2 then .stackRef f1 o1 else .top := rfl

@[simp] lemma join_heapRef_heapRef (a1 o1 a2 o2 : Nat) :
    join (.heapRef a1 o1) (.heapRef a2 o2) =
      if a1 = a2 ∧ o1 = o2 then .heapRef a1 o1 else .top := rfl

@[simp] lemma join_funcPtr_funcPtr (s t : Option (Finset Nat)) :
    join (.funcPtr s) (.funcPtr t) = .funcPtr (fpJoin s t) := by
  cases s <;> cases t <;> rfl

@[simp] lemma join_const_stackRef (w l f o : Nat) :
    join (.const w l) (.stackRef f o) = .top := rfl

@[simp] lemma join_const_heapRef (w l a o : Nat) :
    join (.const w l) (.heapRef a o) = .top := rfl

@[simp] lemma join_const_funcPtr (w l : Nat) (t : Option (Finset Nat)) :
    join (.const w l) (.funcPtr t) = .top := by cases t <;> rfl

@[simp] lemma join_stackRef_const (f o w l : Nat) :
    join (.stackRef f o) (.const w l) = .top := rfl

@[simp] lemma join_stackRef_heapRef (f o a o2 : Nat) :
    join (.stackRef f o) (.heapRef a o2) = .top := rfl

@[simp] lemma join_stackRef_funcPtr (f o : Nat) (t : Option (Finset Nat)) :
    join (.stackRef f o) (.funcPtr t) = .top := by cases t <;> rfl

@[simp] lemma join_heapRef_const (a o w l : Nat) :
    join (.heapRef a o) (.const w l) = .top := rfl

@[simp] lemma join_heapRef_stackRef (a o f o2 : Nat) :
    join (.heapRef a o) (.stackRef f o2) = .top := rfl

@[simp] lemma join_heapRef_funcPtr (a o : Nat) (t : Option (Finset Nat)) :
    join (.heapRef a o) (.funcPtr t) = .top := by cases t <;> rfl

@[simp] lemma join_funcPtr_const (t : Option (Finset Nat)) (w l : Nat) :
    join (.funcPtr t) (.const w l) = .top := by cases t <;> rfl

@[simp] lemma join_funcPtr_stackRef (t : Option (Finset Nat)) (f o : Nat) :
    join (.funcPtr t) (.stackRef f o) = .top := by cases t <;> rfl

@[simp] lemma join_funcPtr_heapRef (t : Option (Finset Nat)) (a o : Nat) :
    join (.funcPtr t) (.heapRef a o) = .top := by cases t <;> rfl

lemma fpJoin_comm (s t : Option (Finset Nat)) : fpJoin s t = fpJoin t s := by
  cases s <;> cases t <;> simp [fpJoin, Finset.union_comm]

lemma fpJoin_assoc (s t u : Option (Finset Nat)) :
    fpJoin (fpJoin s t) u = fpJoin s (fpJoin t u) := by
  cases s <;> cases t <;> cases u <;> simp [fpJoin, Finset.union_assoc]

lemma fpJoin_idem (s : Option (Finset Nat)) : fpJoin s s = s := by
  cases s <;> simp [fpJoin]

lemma join_idem (a : AbstractValue) : join a a = a := by
  cases a <;> simp [fpJoin_idem]

lemma join_comm (a b : AbstractValue) : join a b = join b a := by
  cases a <;> cases b <;> simp [fpJoin_comm]
  case const.const w1 l1 w2 l2 =>
    by_cases h : w1 = w2 ∧ l1 = l2
    · obtain ⟨rfl, rfl⟩ := h; simp
    · rw [if_neg h, if_neg (by tauto)]
  case stackRef.stackRef f1 o1 f2 o2 =>
    by_cases h : f1 = f2 ∧ o1 = o2
    · obtain ⟨rfl, rfl⟩ := h; simp
    · rw [if_neg h, if_neg (by tauto)]
  case heapRef.heapRef a1 o1 a2 o2 =>
    by_cases h : a1 = a2 ∧ o1 = o2
    · obtain ⟨rfl, rfl⟩ := h; simp
    · rw [if_neg h, if_neg (by tauto)]

lemma join_assoc (a b c : AbstractValue) :
    join (join a b) c = join a (join b c) := by
  cases a <;> cases b <;> cases c <;>
    simp [fpJoin_assoc] <;>
    split_ifs <;> simp_all <;> rw [if_neg (by tauto)]

end AbstractValue


lemma avLe_refl (a : AbstractValue) : avLe a a := join_idem a

lemma undef_avLe (a : AbstractValue) : avLe .undef a := join_undef_left a

lemma avLe_top (a : AbstractValue) : avLe a .top := join_top_right a

lemma avLe_trans {a b c : AbstractValue} (h1 : avLe a b) (h2 : avLe b c) :
    avLe a c := by
  unfold avLe at *
  rw [← h2, ← join_assoc, h1]

lemma avLe_antisymm {a b : AbstractValue} (h1 : avLe a b) (h2 : avLe b a) :
    a = b := by
  have hc := join_comm a b
  unfold avLe at h1 h2
  rw [h1, h2] at hc
  exact hc.symm

lemma avLe_undef_right {a : AbstractValue} (h : avLe a .undef) :
    a = .undef := by
  have h2 := join_undef_right a
  unfold avLe at h
  rw [h] at h2
  exact h2.symm

lemma le_join_left (a b : AbstractValue) : avLe a (join a b) := by
  unfold avLe
  rw [← join_assoc, join_idem]

lemma le_join_right (a b : AbstractValue) : avLe b (join a b) := by
  unfold avLe
  rw [join_comm a b, ← join_assoc, join_idem]

lemma join_le {a b c : AbstractValue} (h1 : avLe a c) (h2 : avLe b c) :
    avLe (join a b) c := by
  unfold avLe at *
  rw [join_assoc, h2, h1]

lemma join_mono {a a2 b b2 : AbstractValue} (h1 : avLe a a2)
    (h2 : avLe b b2) : avLe (join a b) (join a2 b2) :=
  join_le (avLe_trans h1 (le_join_left _ _))
    (avLe_trans h2 (le_join_right _ _))

lemma avLe_cases {a b : AbstractValue} (h : avLe a b) :
    a = .undef ∨ b = .top ∨ a = b ∨
      ∃ s t, a = .funcPtr s ∧ b = .funcPtr t ∧ fpJoin s t = t := by
  cases a <;> cases b <;> simp_all [avLe]

/-- A binary transfer operation that is strict in `Undefined`, absorbs
`Top`, and maps function-pointer operands to `Top` is monotone in the
lattice order. -/
lemma op_mono_of (f : AbstractValue → AbstractValue → AbstractValue)
    (hl : ∀ b, f .undef b = .undef)
    (hr : ∀ a, f a .undef = .undef)
    (htl : ∀ b, b ≠ .undef → f .top b = .top)
    (htr : ∀ a, a ≠ .undef → f a .top = .top)
    (hfl : ∀ s b, b ≠ .undef → f (.funcPtr s) b = .top)
    (hfr : ∀ a u, a ≠ .undef → f a (.funcPtr u) = .top)
    {a a2 b b2 : AbstractValue} (h1 : avLe a a2) (h2 : avLe b b2) :
    avLe (f a b) (f a2 b2) := by
  rcases avLe_cases h1 with rfl | rfl | rfl | ⟨s, t, rfl, rfl, hst⟩ <;>
    rcases avLe_cases h2 with rfl | rfl | rfl | ⟨u, v, rfl, rfl, huv⟩
  · rw [hl]; exact undef_avLe _
  · rw [hl]; exact undef_avLe _
  · rw [hl]; exact undef_avLe _
  · rw [hl]; exact undef_avLe _
  · rw [hr]; exact undef_avLe _
  · rw [htl _ (by simp)]; exact avLe_top _
  · by_cases hb : b = .undef
    · subst hb; rw [hr]; exact undef_avLe _
    · rw [htl _ hb]; exact avLe_top _
  · rw [htl _ (by simp)]; exact avLe_top _
  · rw [hr]; exact undef_avLe _
  · by_cases ha : a = .undef
    · subst ha; rw [hl]; exact undef_avLe _
    · rw [htr _ ha]; exact avLe_top _
  · exact avLe_refl _
  · by_cases ha : a = .undef
    · subst ha; rw [hl]; exact undef_avLe _
    · rw [hfr _ u ha, hfr _ v ha]; exact avLe_refl _
  · rw [hr]; exact undef_avLe _
  · rw [htr _ (by simp)]; exact avLe_top _
  · by_cases hb : b = .undef
    · subst hb; rw [hr]; exact undef_avLe _
    · rw [hfl s _ hb, hfl t _ hb]; exact avLe_refl _
  · rw [hfl _ _ (by simp), hfl _ _ (by simp)]; exact avLe_refl _

lemma aAdd_mono {a a2 b b2 : AbstractValue} (h1 : avLe a a2)
    (h2 : avLe b b2) : avLe (aAdd a b) (aAdd a2 b2) :=
  op_mono_of aAdd (fun b => by cases b <;> rfl) (fun a => by cases a <;> rfl)
    (fun b hb => by cases b <;> first | exact absurd rfl hb | rfl)
    (fun a ha => by cases a <;> first | exact absurd rfl ha | rfl)
    (fun s b hb => by cases b <;> first | exact absurd rfl hb | rfl)
    (fun a u ha => by cases a <;> first | exact absurd rfl ha | rfl)
    h1 h2

lemma aBitAnd_mono {a a2 b b2 : AbstractValue} (h1 : avLe a a2)
    (h2 : avLe b b2) : avLe (aBitAnd a b) (aBitAnd a2 b2) :=
  op_mono_of aBitAnd (fun b => by cases b <;> rfl)
    (fun a => by cases a <;> rfl)
    (fun b hb => by cases b <;> first | exact absurd rfl hb | rfl)
    (fun a ha => by cases a <;> first | exact absurd rfl ha | rfl)
    (fun s b hb => by cases b <;> first | exact absurd rfl hb | rfl)
    (fun a u ha => by cases a <;> first | exact absurd rfl ha | rfl)
    h1 h2

lemma aBitOr_mono {a a2 b b2 : AbstractValue} (h1 : avLe a a2)
    (h2 : avLe b b2) : avLe (aBitOr a b) (aBitOr a2 b2) :=
  op_mono_of aBitOr (fun b => by cases b <;> rfl)
    (fun a => by cases a <;> rfl)
    (fun b hb => by cases b <;> first | exact absurd rfl hb | rfl)
    (fun a ha => by cases a <;> first | exact absurd rfl ha | rfl)
    (fun s b hb => by cases b <;> first | exact absurd rfl hb | rfl)
    (fun a u ha => by cases a <;> first | exact absurd rfl ha | rfl)
    h1 h2

lemma aLt_mono {a a2 b b2 : AbstractValue} (h1 : avLe a a2)
    (h2 : avLe b b2) : avLe (aLt a b) (aLt a2 b2) :=
  op_mono_of aLt (fun b => by cases b <;> rfl)
    (fun a => by cases a <;> rfl)
    (fun b hb => by cases b <;> first | exact absurd rfl hb | rfl)
    (fun a ha => by cases a <;> first | exact absurd rfl ha | rfl)
    (fun s b hb => by cases b <;> first | exact absurd rfl hb | rfl)
    (fun a u ha => by cases a <;> first | exact absurd rfl ha | rfl)
    h1 h2

lemma aEq_mono {a a2 b b2 : AbstractValue} (h1 : avLe a a2)
    (h2 : avLe b b2) : avLe (aEq a b) (aEq a2 b2) :=
  op_mono_of aEq (fun b => by cases b <;> rfl)
    (fun a => by cases a <;> rfl)
    (fun b hb => by cases b <;> first | exact absurd rfl hb | rfl)
    (fun a ha => by cases a <;> first | exact absurd rfl ha | rfl)
    (fun s b hb => by cases b <;> first | exact absurd rfl hb | rfl)
    (fun a u ha => by cases a <;> first | exact absurd rfl ha | rfl)
    h1 h2

lemma aBitNot_mono {a a2 : AbstractValue} (h : avLe a a2) :
    avLe (aBitNot a) (aBitNot a2) := by
  rcases avLe_cases h with rfl | rfl | rfl | ⟨s, t, rfl, rfl, hst⟩
  · exact undef_avLe _
  · cases a <;> exact avLe_top _
  · exact avLe_refl _
  · exact avLe_refl _

lemma tableResolve_mono (entries : List Nat) {a a2 : AbstractValue}
    (h : avLe a a2) : avLe (tableResolve entries a) (tableResolve entries a2) := by
  rcases avLe_cases h with rfl | rfl | rfl | ⟨s, t, rfl, rfl, hst⟩
  · exact undef_avLe _
  · cases a with
    | undef => exact undef_avLe _
    | const w i =>
        simp only [tableResolve]
        split
        · rename_i hi
          simp only [avLe, join_funcPtr_funcPtr, fpJoin]
          have hmem : entries.getD i 0 ∈ entries := by
            rw [List.getD_eq_getElem _ _ hi]
            exact List.getElem_mem hi
          have hsub : {entries.getD i 0} ∪ entries.toFinset =
              entries.toFinset := by
            rw [Finset.union_eq_right]
            intro x hx
            rw [Finset.mem_singleton] at hx
            subst hx
            exact List.mem_toFinset.2 hmem
          rw [hsub]
        · simp only [avLe, join_funcPtr_funcPtr, fpJoin]
          rw [Finset.empty_union]
    | top => exact avLe_refl _
    | stackRef f o => exact avLe_refl _
    | heapRef a o => exact avLe_refl _
    | funcPtr t => exact avLe_refl _
  · exact avLe_refl _
  · exact avLe_refl _

lemma store3Le_refl (r : Store3) : store3Le r r := fun _ => avLe_refl _

lemma store3Le_trans {r1 r2 r3 : Store3} (h1 : store3Le r1 r2)
    (h2 : store3Le r2 r3) : store3Le r1 r3 :=
  fun l => avLe_trans (h1 l) (h2 l)

lemma botStore_le (r : Store3) : store3Le botStore r :=
  fun _ => undef_avLe _

lemma store3Le_bot_eq {r : Store3} (h : store3Le r botStore) :
    r = botStore :=
  funext fun l => avLe_undef_right (h l)

lemma store3Le_antisymm {r1 r2 : Store3} (h1 : store3Le r1 r2)
    (h2 : store3Le r2 r1) : r1 = r2 :=
  funext fun l => avLe_antisymm (h1 l) (h2 l)

lemma le_joinStore3_left (r1 r2 : Store3) : store3Le r1 (joinStore3 r1 r2) :=
  fun _ => le_join_left _ _

lemma joinStore3_le {r1 r2 r3 : Store3} (h1 : store3Le r1 r3)
    (h2 : store3Le r2 r3) : store3Le (joinStore3 r1 r2) r3 :=
  fun l => join_le (h1 l) (h2 l)

lemma widen_self (a : AbstractValue) : widen a a = a := by
  rw [widen, if_pos (join_idem a)]

lemma le_widen_left (a b : AbstractValue) : avLe a (widen a b) := by
  rw [widen]
  by_cases h : join a b = a
  · rw [if_pos h]; exact avLe_refl a
  · rw [if_neg h]; exact avLe_top a

lemma le_widen_right (a b : AbstractValue) : avLe b (widen a b) := by
  rw [widen]
  by_cases h : join a b = a
  · rw [if_pos h]
    show join b a = a
    rw [join_comm]; exact h
  · rw [if_neg h]; exact avLe_top b

lemma propagate_join {n : Nat} (G : CFG n) (s : WLState n) (b j : Fin n)
    (h : ¬(G.header j = true ∧ G.bound < s.visits j)) :
    propagate G s b j =
      joinStore3 (s.stores j) (flowTo G b j (s.stores b)) := by
  rw [propagate, if_neg h]

lemma propagate_widen {n : Nat} (G : CFG n) (s : WLState n) (b j : Fin n)
    (h : G.header j = true ∧ G.bound < s.visits j) :
    propagate G s b j =
      widenStore3 (s.stores j) (flowTo G b j (s.stores b)) := by
  rw [propagate, if_pos h]

lemma propagate_header_false {n : Nat} (G : CFG n) (s : WLState n)
    (b j : Fin n) (h : G.header j = false) :
    propagate G s b j =
      joinStore3 (s.stores j) (flowTo G b j (s.stores b)) :=
  propagate_join G s b j (fun hc => Bool.false_ne_true (h ▸ hc.1))

lemma le_propagate {n : Nat} (G : CFG n) (s : WLState n) (b j : Fin n) :
    store3Le (s.stores j) (propagate G s b j) := by
  rw [propagate]
  by_cases h : G.header j = true ∧ G.bound < s.visits j
  · rw [if_pos h]; exact fun l => le_widen_left _ _
  · rw [if_neg h]; exact le_joinStore3_left _ _

lemma flow_le_propagate {n : Nat} (G : CFG n) (s : WLState n) (b j : Fin n) :
    store3Le (flowTo G b j (s.stores b)) (propagate G s b j) := by
  rw [propagate]
  by_cases h : G.header j = true ∧ G.bound < s.visits j
  · rw [if_pos h]; exact fun l => le_widen_right _ _
  · rw [if_neg h]; exact fun l => le_join_right _ _

lemma evalPure_mono (fr : Nat) {r r2 : Store3} (h : store3Le r r2)
    (e : Expr) : avLe (evalPure fr r e) (evalPure fr r2 e) := by
  induction e with
  | lit w l => exact avLe_refl _
  | inputE => exact avLe_refl _
  | locE l => exact h l
  | argE i => exact h _
  | frameAddr off => exact avLe_refl _
  | loadE base off ih =>
      simp only [evalPure]
      rcases avLe_cases ih with h1 | h1 | h1 | ⟨s, t, h1, h2, hst⟩
      · rw [h1]; exact undef_avLe _
      · rw [h1]; exact avLe_top _
      · rw [h1]
        cases evalPure fr r2 base with
        | undef => exact avLe_refl _
        | top => exact avLe_refl _
        | const w l => exact avLe_refl _
        | stackRef f o => exact h _
        | heapRef a o => exact h _
        | funcPtr t => exact avLe_refl _
      · rw [h1, h2]; exact avLe_refl _
  | addE e1 e2 ih1 ih2 => exact aAdd_mono ih1 ih2
  | andE e1 e2 ih1 ih2 => exact aBitAnd_mono ih1 ih2
  | orE e1 e2 ih1 ih2 => exact aBitOr_mono ih1 ih2
  | notE e ih => exact aBitNot_mono ih
  | ltE e1 e2 ih1 ih2 => exact aLt_mono ih1 ih2
  | eqE e1 e2 ih1 ih2 => exact aEq_mono ih1 ih2
  | tableE entries idx ih => exact tableResolve_mono entries ih

lemma writeT_mono (s : Location) {v v2 : AbstractValue} {r r2 : Store3}
    (hv : avLe v v2) (h : store3Le r r2) :
    store3Le (writeT s v r) (writeT s v2 r2) := by
  intro l
  simp only [writeT]
  by_cases hl : l = s
  · simp only [hl, if_pos rfl]
    exact hv
  · simp only [if_neg hl]
    exact h l

lemma le_clobT {r r2 : Store3} (h : store3Le r r2) :
    store3Le r (clobT r2) := by
  intro l
  simp only [clobT]
  by_cases hm : isMemLoc l
  · simp only [hm, if_pos]
    exact avLe_top _
  · simp only [hm, Bool.false_eq_true, if_false]
    exact h l

lemma clobT_mono {r r2 : Store3} (h : store3Le r r2) :
    store3Le (clobT r) (clobT r2) := by
  intro l
  simp only [clobT]
  by_cases hm : isMemLoc l
  · simp only [hm, if_pos]
    exact avLe_refl _
  · simp only [hm, Bool.false_eq_true, if_false]
    exact h l

lemma writeT_le_clobT (s : Location) (v : AbstractValue) {r r2 : Store3}
    (hs : isMemLoc s = true) (h : store3Le r r2) :
    store3Le (writeT s v r) (clobT r2) := by
  intro l
  simp only [writeT, clobT]
  by_cases hl : l = s
  · simp only [hl, hs, if_pos rfl]
    exact avLe_top _
  · simp only [if_neg hl]
    by_cases hm : isMemLoc l
    · simp only [hm, if_pos]
      exact avLe_top _
    · simp only [hm, Bool.false_eq_true, if_false]
      exact h l

lemma instrT_mono (fr : Nat) (ins : BInstr) {r r2 : Store3}
    (h : store3Le r r2) : store3Le (instrT fr ins r) (instrT fr ins r2) := by
  cases ins with
  | assignB d e =>
      simp only [instrT]
      exact writeT_mono d (evalPure_mono fr h e) h
  | storeB base off e =>
      have hb := evalPure_mono fr h base
      have hv := evalPure_mono fr h e
      simp only [instrT]
      rcases avLe_cases hb with h1 | h1 | h1 | ⟨s, t, h1, h2, hst⟩
      · rw [h1]
        exact botStore_le _
      · rw [h1]
        cases hc : evalPure fr r base with
        | undef => exact botStore_le _
        | stackRef f o => exact writeT_le_clobT _ _ rfl h
        | heapRef a o => exact writeT_le_clobT _ _ rfl h
        | top => exact clobT_mono h
        | const w lit => exact clobT_mono h
        | funcPtr t => exact clobT_mono h
      · rw [h1]
        cases evalPure fr r2 base with
        | undef => exact botStore_le _
        | stackRef f o => exact writeT_mono _ hv h
        | heapRef a o => exact writeT_mono _ hv h
        | top => exact clobT_mono h
        | const w lit => exact clobT_mono h
        | funcPtr t => exact clobT_mono h
      · rw [h1, h2]
        exact clobT_mono h
  | opaqueB d =>
      simp only [instrT]
      exact writeT_mono d (avLe_refl _) (clobT_mono h)

lemma blockT_mono (fr : Nat) (instrs : List BInstr) {r r2 : Store3}
    (h : store3Le r r2) : store3Le (blockT fr instrs r) (blockT fr instrs r2) := by
  induction instrs generalizing r r2 with
  | nil => exact h
  | cons ins rest ih =>
      simp only [blockT, List.foldl_cons]
      exact ih (instrT_mono fr ins h)

lemma guardTaken_mono (fr : Nat) (g : Option (Expr × Bool)) {r r2 : Store3}
    (h : store3Le r r2) (ht : guardTaken fr g r = true) :
    guardTaken fr g r2 = true := by
  cases g with
  | none => rfl
  | some ep =>
      obtain ⟨e, pol⟩ := ep
      have he := evalPure_mono fr h e
      simp only [guardTaken] at ht ⊢
      rcases avLe_cases he with h1 | h1 | h1 | ⟨s, t, h1, h2, hst⟩
      · rw [h1] at ht
        simp at ht
      · rw [h1]
      · rw [← h1]
        exact ht
      · rw [h2]

lemma flowTo_mono {n : Nat} (G : CFG n) (b j : Fin n) {r r2 : Store3}
    (h : store3Le r r2) : store3Le (flowTo G b j r) (flowTo G b j r2) := by
  simp only [flowTo]
  cases G.edge b j with
  | none => exact store3Le_refl _
  | some g =>
      have hout := blockT_mono G.frame (G.instrs b) h
      show store3Le
        (if guardTaken G.frame g (blockT G.frame (G.instrs b) r) = true
          then blockT G.frame (G.instrs b) r else botStore)
        (if guardTaken G.frame g (blockT G.frame (G.instrs b) r2) = true
          then blockT G.frame (G.instrs b) r2 else botStore)
      by_cases ht : guardTaken G.frame g (blockT G.frame (G.instrs b) r) = true
      · rw [if_pos ht, if_pos (guardTaken_mono G.frame g hout ht)]
        exact hout
      · rw [if_neg ht]
        exact fun l => undef_avLe _

lemma wstep_stores_le {n : Nat} {G : CFG n} {s s2 : WLState n}
    (h : WStep G s s2) : ∀ j, store3Le (s.stores j) (s2.stores j) := by
  cases h with
  | step b hb stores2 wl2 visits2 hs hw hv =>
      intro j
      subst hs
      exact le_propagate G s b j

lemma wrun_stores_le {n : Nat} {G : CFG n} {s s2 : WLState n}
    (h : WRun G s s2) : ∀ j, store3Le (s.stores j) (s2.stores j) := by
  induction h with
  | refl => exact fun j => store3Le_refl _
  | tail hrun hstep ih =>
      exact fun j => store3Le_trans (ih j) (wstep_stores_le hstep j)

lemma winv2_init {n : Nat} (G : CFG n) (i0 : Store3) :
    WInv2 G (initWL G i0) := by
  intro b hb
  left
  simpa [initWL] using hb

lemma winv3_init {n : Nat} (G : CFG n) (i0 : Store3) :
    WInv3 G (initWL G i0) := by
  intro b hb
  have hne : b ≠ G.entry := by simpa [initWL] using hb
  left
  exact ⟨by simp [initWL, hne], hne⟩

lemma winv2_step {n : Nat} {G : CFG n} {s s2 : WLState n}
    (h : WStep G s s2) (h2 : WInv2 G s) : WInv2 G s2 := by
  cases h with
  | step b hb stores2 wl2 visits2 hs hw hv =>
      intro j hj
      have hgrow : store3Le (s.stores j) (stores2 j) := by
        subst hs
        exact le_propagate G s b j
      have hnb : stores2 j ≠ botStore → s.stores j ≠ botStore ∨ True :=
        fun _ => Or.inr trivial
      rcases (hw j).1 hj with ⟨hjw, _⟩ | hne
      · rcases h2 j hjw with hent | hsb
        · exact Or.inl hent
        · right
          intro hbot
          have hb2 : stores2 j = botStore := hbot
          rw [hb2] at hgrow
          exact hsb (store3Le_bot_eq hgrow)
      · right
        intro hbot
        have hb2 : stores2 j = botStore := hbot
        rw [hb2] at hgrow
        exact hne (hb2.trans (store3Le_bot_eq hgrow).symm)

lemma winv3_step {n : Nat} {G : CFG n} {s s2 : WLState n}
    (h : WStep G s s2) (hI3 : WInv3 G s) : WInv3 G s2 := by
  cases h with
  | step b hb stores2 wl2 visits2 hs hw hv =>
      intro c hc
      have hc2 : stores2 c = s.stores c := by
        by_contra hne
        exact hc ((hw c).2 (Or.inr hne))
      by_cases hcb : c = b
      · subst hcb
        right
        intro j
        show store3Le (flowTo G c j (stores2 c)) (stores2 j)
        rw [hc2, hs]
        exact flow_le_propagate G s c j
      · have hcw2 : c ∉ s.wl := fun hcwl => hc ((hw c).2 (Or.inl ⟨hcwl, hcb⟩))
        rcases hI3 c hcw2 with ⟨hbot, hent⟩ | hflows
        · left
          exact ⟨hc2.trans hbot, hent⟩
        · right
          intro j
          show store3Le (flowTo G c j (stores2 c)) (stores2 j)
          rw [hc2]
          refine store3Le_trans (hflows j) ?_
          subst hs
          exact le_propagate G s b j

lemma winv_run {n : Nat} {G : CFG n} {i0 : Store3} {s : WLState n}
    (h : WRun G (initWL G i0) s) : WInv2 G s ∧ WInv3 G s := by
  induction h with
  | refl => exact ⟨winv2_init G i0, winv3_init G i0⟩
  | tail hrun hstep ih =>
      exact ⟨winv2_step hstep ih.1, winv3_step hstep ih.2⟩

lemma run_le_terminal {n : Nat} {G : CFG n} {i0 : Store3} {s T : WLState n}
    (hG : ∀ b, G.header b = false)
    (hs : WRun G (initWL G i0) s) (hT : WRun G (initWL G i0) T)
    (hTwl : T.wl = ∅) : ∀ j, store3Le (s.stores j) (T.stores j) := by
  induction hs with
  | refl => exact wrun_stores_le hT
  | tail hrun hstep ih =>
      rename_i m s2
      have hI2m := (winv_run hrun).1
      have hI3T := (winv_run hT).2
      cases hstep with
      | step b hb stores2 wl2 visits2 hs2 hw hv =>
          intro j
          show store3Le (stores2 j) (T.stores j)
          subst hs2
          show store3Le (propagate G m b j) (T.stores j)
          rw [propagate_header_false G m b j (hG j)]
          refine joinStore3_le (ih j) ?_
          rcases hI3T b (by rw [hTwl]; exact Finset.not_mem_empty b) with
            ⟨hTbot, hTent⟩ | hTflow
          · have hmb : m.stores b = botStore :=
              store3Le_bot_eq (hTbot ▸ ih b)
            rcases hI2m b hb with hent | hne
            · exact absurd hent hTent
            · exact absurd hmb hne
          · exact store3Le_trans (flowTo_mono G b j (ih b)) (hTflow j)

lemma fsList_empty : fsList ∅ = [] := by decide

lemma fsList_singleton (t : Nat) : fsList {t} = [t] := by
  have hm : ({t} : Finset Nat).fold Nat.max 0 id = t := by
    simp [Finset.fold_singleton]
  simp only [fsList, hm, Finset.mem_singleton]
  rw [List.range_succ, List.filter_append]
  rw [List.filter_eq_nil_iff.2
    (fun a ha => by simp [Nat.ne_of_lt (List.mem_range.1 ha)])]
  simp

lemma readStore_append_right (s t : ListStore) (l : Location)
    (hc : containsKey s l = false) : readStore (s ++ t) l = readStore t l := by
  induction s with
  | nil => simp
  | cons p rest ih =>
      simp only [containsKey, List.any_cons, Bool.or_eq_false_iff] at hc
      simp only [List.cons_append, readStore, List.find?_cons, hc.1]
      exact ih (by simp [containsKey, hc.2])

lemma readStore_writeStore_self (s : ListStore) (l : Location)
    (v : AbstractValue) : readStore (writeStore s l v) l = v := by
  by_cases hc : containsKey s l
  · rw [writeStore, if_pos hc, readStore, List.find?_map]
    have hpred : ((fun p : Location × AbstractValue => p.1 == l) ∘
        (fun p => if p.1 == l then (l, v) else p)) =
        fun p : Location × AbstractValue => p.1 == l := by
      funext q
      by_cases hq : q.1 = l <;> simp [hq]
    rw [hpred]
    obtain ⟨q, hq⟩ :
        ∃ q, s.find? (fun p : Location × AbstractValue => p.1 == l) = some q := by
      cases hfind : s.find? (fun p : Location × AbstractValue => p.1 == l) with
      | some q => exact ⟨q, rfl⟩
      | none =>
          rw [List.find?_eq_none] at hfind
          simp only [containsKey, List.any_eq_true] at hc
          obtain ⟨p, hp, hpl⟩ := hc
          exact absurd hpl (by simpa using hfind p hp)
    rw [hq]
    have hql := List.find?_some hq
    simp [show q.1 = l from by simpa using hql]
  · rw [writeStore, if_neg hc]
    rw [readStore_append_right s _ l (by simpa using hc)]
    simp [readStore, List.find?]

lemma readStore_map_reach (s : ListStore) (ids : List MemId) (l : Location)
    (i : MemId) (hk : containsKey s l = true) (hi : locMemId l = some i)
    (him : i ∈ ids) :
    readStore (s.map (fun p =>
      match locMemId p.1 with
      | some j => if j ∈ ids then (p.1, AbstractValue.top) else p
      | none => p)) l = AbstractValue.top := by
  induction s with
  | nil => simp [containsKey] at hk
  | cons p rest ih =>
      by_cases hp : p.1 = l
      · subst hp
        simp only [List.map_cons, readStore, List.find?_cons, hi, him, if_true]
        simp [readStore, List.find?]
      · have hp2 : (p.1 == l) = false := by simp [hp]
        simp only [containsKey, List.any_cons, hp2, Bool.false_or] at hk
        simp only [List.map_cons, readStore, List.find?_cons]
        have hkey : (match locMemId p.1 with
            | some j => if j ∈ ids then (p.1, AbstractValue.top) else p
            | none => p).1 = p.1 := by
          cases hpm : locMemId p.1 with
          | none => rfl
          | some j => by_cases hj : j ∈ ids <;> simp [hj]
        rw [hkey, hp2]
        simpa [readStore] using ih hk

/-- C2: for all AbstractValue lattice elements `a, b, c`: `join` is
commutative, associative, and idempotent; `join(a, Undefined) = a`; and
`join(a, Top) = Top` — where `join` follows the stated rules (two
distinct `Const` values, or a pointer joined with a non-matching
pointer/scalar, yield `Top`; `StackRef`/`HeapRef` joined with themselves
at equal (frameId/allocId, offset) is identity). -/
theorem claim_C2_lattice_laws :
    (∀ a b : AbstractValue, join a b = join b a) ∧
      (∀ a b c : AbstractValue, join (join a b) c = join a (join b c)) ∧
      (∀ a : AbstractValue, join a a = a) ∧
      (∀ a : AbstractValue, join a .undef = a) ∧
      (∀ a : AbstractValue, join a .top = .top) :=
  ⟨join_comm, join_assoc, join_idem, join_undef_right, join_top_right⟩

/-- C3 (amended): order-independence of the terminal Stores holds in
the join-only regime — for every function CFG none of whose blocks is a
widening loop header (so every merge into a successor uses the plain
`join`, the regime in force while no loop header exceeds the iteration
bound), any two valid worklist orderings of the fixpoint engine that
terminate produce identical terminal Stores at every program point.
The unrestricted claim is false: with the spec's widen-instead-of-join
at loop headers past the bound, two valid orderings can produce
different terminal Stores (see the counterexample). -/
theorem claim_C3_worklist_confluence {n : Nat} (G : CFG n) (i0 : Store3)
    (hG : ∀ b, G.header b = false) (s1 s2 : WLState n)
    (h1 : WRun G (initWL G i0) s1) (t1 : s1.wl = ∅)
    (h2 : WRun G (initWL G i0) s2) (t2 : s2.wl = ∅) :
    s1.stores = s2.stores :=
  funext fun j =>
    store3Le_antisymm (run_le_terminal hG h1 h2 t2 j)
      (run_le_terminal hG h2 h1 t1 j)

lemma confStep : WStep confCFG (initWL confCFG botStore) confTerminal := by
  refine WStep.step (initWL confCFG botStore) 0 (by decide) _ ∅ _ rfl ?_ rfl
  intro j
  constructor
  · intro hj
    exact absurd hj (Finset.not_mem_empty j)
  · rintro (⟨hjw, hjb⟩ | hne)
    · exact absurd (Subsingleton.elim j 0) hjb
    · refine absurd ?_ hne
      show propagate confCFG (initWL confCFG botStore) 0 j =
        (initWL confCFG botStore).stores j
      rw [propagate_header_false confCFG (initWL confCFG botStore) 0 j rfl]
      exact funext fun l => join_undef_right _

/-- Witness for C3: the one-block CFG has no loop header, has a
terminal run, and the confluence theorem applied to it twice yields the
equality of its terminal Stores. -/
theorem claim_C3_witness :
    (∀ b, confCFG.header b = false) ∧ confTerminal.wl = ∅ ∧
      confTerminal.stores = confTerminal.stores :=
  ⟨fun _ => rfl, rfl,
    claim_C3_worklist_confluence confCFG botStore (fun _ => rfl)
      confTerminal confTerminal
      (Relation.ReflTransGen.single confStep) rfl
      (Relation.ReflTransGen.single confStep) rfl⟩

lemma cexStep1 : WStep cexCFG (initWL cexCFG botStore) cexS1 := by
  refine WStep.step (initWL cexCFG botStore) 0 (by decide) _ {1, 2} _
    rfl ?_ rfl
  intro j
  fin_cases j
  · constructor
    · intro hj
      exact absurd hj (by decide)
    · rintro (⟨hjw, hjb⟩ | hne)
      · exact absurd rfl hjb
      · refine absurd ?_ hne
        show propagate cexCFG (initWL cexCFG botStore) 0 0 =
          (initWL cexCFG botStore).stores 0
        rw [propagate_join cexCFG (initWL cexCFG botStore) 0 0 (by decide)]
        exact funext fun l => join_undef_right _
  · exact ⟨fun _ => Or.inr (fun h => absurd (congrFun h (.reg 1)) (by decide)),
      fun _ => by decide⟩
  · exact ⟨fun _ => Or.inr (fun h => absurd (congrFun h (.reg 1)) (by decide)),
      fun _ => by decide⟩

lemma cexStepA2 : WStep cexCFG cexS1 cexA2 := by
  refine WStep.step cexS1 2 (by decide) _ {1} _ rfl ?_ rfl
  intro j
  fin_cases j
  · constructor
    · intro hj
      exact absurd hj (by decide)
    · rintro (⟨hjw, hjb⟩ | hne)
      · exact absurd hjw (by decide)
      · refine absurd ?_ hne
        show propagate cexCFG cexS1 2 0 = cexS1.stores 0
        rw [propagate_join cexCFG cexS1 2 0 (by decide)]
        exact funext fun l => join_undef_right _
  · exact ⟨fun _ => Or.inl ⟨by decide, by decide⟩, fun _ => by decide⟩
  · constructor
    · intro hj
      exact absurd hj (by decide)
    · rintro (⟨hjw, hjb⟩ | hne)
      · exact absurd rfl hjb
      · refine absurd ?_ hne
        show propagate cexCFG cexS1 2 2 = cexS1.stores 2
        rw [propagate_join cexCFG cexS1 2 2 (by decide)]
        exact funext fun l => join_idem _

lemma cexStepA3 : WStep cexCFG cexA2 cexA3 := by
  refine WStep.step cexA2 1 (by decide) _ {2} _ rfl ?_ rfl
  intro j
  fin_cases j
  · constructor
    · intro hj
      exact absurd hj (by decide)
    · rintro (⟨hjw, hjb⟩ | hne)
      · exact absurd hjw (by decide)
      · refine absurd ?_ hne
        show propagate cexCFG cexA2 1 0 = cexA2.stores 0
        rw [propagate_join cexCFG cexA2 1 0 (by decide)]
        exact funext fun l => join_undef_right _
  · constructor
    · intro hj
      exact absurd hj (by decide)
    · rintro (⟨hjw, hjb⟩ | hne)
      · exact absurd rfl hjb
      · refine absurd ?_ hne
        show propagate cexCFG cexA2 1 1 = cexA2.stores 1
        rw [propagate_join cexCFG cexA2 1 1 (by decide)]
        exact funext fun l => join_undef_right _
  · exact ⟨fun _ => Or.inr (fun h => absurd (congrFun h (.reg 1)) (by decide)),
      fun _ => by decide⟩

lemma cexStepA4 : WStep cexCFG cexA3 cexA4 := by
  refine WStep.step cexA3 2 (by decide) _ ∅ _ rfl ?_ rfl
  intro j
  fin_cases j
  · constructor
    · intro hj
      exact absurd hj (by decide)
    · rintro (⟨hjw, hjb⟩ | hne)
      · exact absurd hjw (by decide)
      · refine absurd ?_ hne
        show propagate cexCFG cexA3 2 0 = cexA3.stores 0
        rw [propagate_join cexCFG cexA3 2 0 (by decide)]
        exact funext fun l => join_undef_right _
  · constructor
    · intro hj
      exact absurd hj (by decide)
    · rintro (⟨hjw, hjb⟩ | hne)
      · exact absurd hjw (by decide)
      · refine absurd ?_ hne
        show propagate cexCFG cexA3 2 1 = cexA3.stores 1
        rw [propagate_join cexCFG cexA3 2 1 (by decide)]
        exact funext fun l => join_undef_right _
  · constructor
    · intro hj
      exact absurd hj (by decide)
    · rintro (⟨hjw, hjb⟩ | hne)
      · exact absurd rfl hjb
      · refine absurd ?_ hne
        show propagate cexCFG cexA3 2 2 = cexA3.stores 2
        rw [propagate_widen cexCFG cexA3 2 2 (by decide)]
        exact funext fun l => widen_self _

lemma cexStepB2 : WStep cexCFG cexS1 cexB2 := by
  refine WStep.step cexS1 1 (by decide) _ {2} _ rfl ?_ rfl
  intro j
  fin_cases j
  · constructor
    · intro hj
      exact absurd hj (by decide)
    · rintro (⟨hjw, hjb⟩ | hne)
      · exact absurd hjw (by decide)
      · refine absurd ?_ hne
        show propagate cexCFG cexS1 1 0 = cexS1.stores 0
        rw [propagate_join cexCFG cexS1 1 0 (by decide)]
        exact funext fun l => join_undef_right _
  · constructor
    · intro hj
      exact absurd hj (by decide)
    · rintro (⟨hjw, hjb⟩ | hne)
      · exact absurd rfl hjb
      · refine absurd ?_ hne
        show propagate cexCFG cexS1 1 1 = cexS1.stores 1
        rw [propagate_join cexCFG cexS1 1 1 (by decide)]
        exact funext fun l => join_undef_right _
  · exact ⟨fun _ => Or.inr (fun h => absurd (congrFun h (.reg 1)) (by decide)),
      fun _ => by decide⟩

lemma cexStepB3 : WStep cexCFG cexB2 cexB3 := by
  refine WStep.step cexB2 2 (by decide) _ ∅ _ rfl ?_ rfl
  intro j
  fin_cases j
  · constructor
    · intro hj
      exact absurd hj (by decide)
    · rintro (⟨hjw, hjb⟩ | hne)
      · exact absurd hjw (by decide)
      · refine absurd ?_ hne
        show propagate cexCFG cexB2 2 0 = cexB2.stores 0
        rw [propagate_join cexCFG cexB2 2 0 (by decide)]
        exact funext fun l => join_undef_right _
  · constructor
    · intro hj
      exact absurd hj (by decide)
    · rintro (⟨hjw, hjb⟩ | hne)
      · exact absurd hjw (by decide)
      · refine absurd ?_ hne
        show propagate cexCFG cexB2 2 1 = cexB2.stores 1
        rw [propagate_join cexCFG cexB2 2 1 (by decide)]
        exact funext fun l => join_undef_right _
  · constructor
    · intro hj
      exact absurd hj (by decide)
    · rintro (⟨hjw, hjb⟩ | hne)
      · exact absurd rfl hjb
      · refine absurd ?_ hne
        show propagate cexCFG cexB2 2 2 = cexB2.stores 2
        rw [propagate_join cexCFG cexB2 2 2 (by decide)]
        exact funext fun l => join_idem _

/-- Counterexample for C3 as frozen: on the three-block CFG whose
header block 2 has iteration bound 0, two valid worklist orderings both
terminate (empty worklist) yet end with different terminal Stores — the
ordering that processes the header between the two incoming
function-pointer flows widens the second flow to `Top` at block 2,
while processing block 1 first merges the flows by plain join into the
precise set \x7b11, 22\x7d. -/
theorem claim_C3_counterexample :
    WRun cexCFG (initWL cexCFG botStore) cexA4 ∧ cexA4.wl = ∅ ∧
      WRun cexCFG (initWL cexCFG botStore) cexB3 ∧ cexB3.wl = ∅ ∧
      cexA4.stores ≠ cexB3.stores :=
  ⟨Relation.ReflTransGen.head cexStep1 (Relation.ReflTransGen.head cexStepA2
      (Relation.ReflTransGen.head cexStepA3
        (Relation.ReflTransGen.single cexStepA4))),
    rfl,
    Relation.ReflTransGen.head cexStep1
      (Relation.ReflTransGen.head cexStepB2
        (Relation.ReflTransGen.single cexStepB3)),
    rfl,
    fun h => absurd (congrFun (congrFun h 2) (.reg 1)) (by decide)⟩

/-- C1: for the branch-join fixture function `bar` (which writes 0 to
the cell its pointer argument designates, then under an unknown
condition writes 1 to it and calls `foo`, then under a second unknown
condition returns either the cell's value or its bitwise complement),
the engine's recovered return-value AbstractValue is exactly `Top` —
both branches of every `Top`-valued condition are explored and their
post-states joined, and the joined return value is not any `Const`. -/
theorem claim_C1_branch_join_top :
    paperDepResult.retVal = AbstractValue.top ∧
      ∀ w l, paperDepResult.retVal ≠ AbstractValue.const w l := by
  have h : paperDepResult.retVal = AbstractValue.top := by decide
  exact ⟨h, by simp [h]⟩

/-- C4: for the straight-line indirect-call fixture `run` (three
sequential calls through the 3-element function-pointer table at the
concrete, statically incremented indices 0, 1, 2, whose targets return
0, 1, 2), the resolver resolves each of the three call sites to exactly
one target, and the engine's recovered return value of `run` is the
concrete constant 3. -/
theorem claim_C4_exact_indirect_resolution :
    icallResult.resolved = [(1, [10]), (2, [11]), (3, [12])] ∧
      (∀ p ∈ icallResult.resolved, p.2.length = 1) ∧
      icallResult.retVal = AbstractValue.const 32 3 :=
  ⟨by decide, by decide, by decide⟩

/-- C5: for the call with thirty constant arguments valued 0..29
(`stack_mem_arg` calling `f_mem_arg`), `classifyArgs` binds the
arguments beyond the calling convention's register count to stack-slot
locations of the callee's frame at strictly increasing offsets matching
source order, with no argument dropped and no two arguments aliased to
the same slot, and the engine concretely evaluates the callee's sum to
the constant 435. -/
theorem claim_C5_stack_argument_fidelity :
    (classifyArgs regCount 1
        ((List.range 30).map (AbstractValue.const 64))).length = 30 ∧
      ((classifyArgs regCount 1
        ((List.range 30).map (AbstractValue.const 64))).map Prod.fst).Nodup ∧
      (classifyArgs regCount 1
        ((List.range 30).map (AbstractValue.const 64))).drop regCount =
        (List.range 24).map (fun j =>
          (Location.stackSlot 1 (8 * j), AbstractValue.const 64 (j + 6))) ∧
      List.Pairwise (· < ·)
        (((classifyArgs regCount 1
          ((List.range 30).map (AbstractValue.const 64))).drop regCount).map
          (fun p => match p.1 with
            | Location.stackSlot _ o => o
            | _ => 0)) ∧
      stackMemArgResult.retVal = AbstractValue.const 64 435 :=
  ⟨by decide, by decide, by decide, by decide, by decide⟩

/-- C6: for the cross-procedure aliasing fixture (`main` passes a heap
pointer to `level_0`, which writes element offset 0 itself and passes
the pointer on to `level_1`, which writes element offset 1), after both
calls return the caller's Store at the shared allocation reflects both
writes — the cells at offsets 0 and 1 hold the values the two callees
wrote (both `Top`, derived from the unknown input), because a `HeapRef`
written through one variable and read through another with an equal
(id, offset) pair observes the same written value. -/
theorem claim_C6_cross_procedure_aliasing :
    readStore refAcrossResult.store (Location.heapCell 7 0) =
        AbstractValue.top ∧
      readStore refAcrossResult.store (Location.heapCell 7 1) =
        AbstractValue.top ∧
      refAcrossResult.retVal = AbstractValue.top :=
  ⟨by decide, by decide, by decide⟩

/-- C7: for the bounds fixture (a 5-byte allocation whose offsets 0–4
are written in a loop, after which the return expression also reads
offset 5, one past the end), the analysis does not abort on the
out-of-bounds read: it emits an `OutOfBoundsAccess` diagnostic, treats
the access as a valid read, and still produces a recovered return value
for the function. -/
theorem claim_C7_bounds_diagnostics :
    Diagnostic.outOfBoundsAccess 3 5 ∈ loopOffsetsResult.diags ∧
      loopOffsetsResult.retVal = AbstractValue.top ∧
      loopOffsetsResult.ok = true :=
  ⟨by decide, by decide, by decide⟩

/-- C8: an indirect call whose `FuncPtr` value is `Unknown` or an empty
set, or whose resolved target has no available body, is not skipped: it
is modeled as an opaque call (`opaqueCall`) that writes `Top` through
every pointer reachable from its arguments and returns `Top`; the
condition is recorded as a non-fatal `UnresolvedIndirectTarget` rather
than aborting the fixpoint (`ok` is untouched), and the engine's result
downstream is still produced — in the fixture loop the unmapped
functions are called, not ignored. -/
theorem claim_C8_opaque_unresolved_calls :
    (∀ (prog : Program) (fuel db : Nat) (st : AState)
        (dst : Option Location) (fe : Expr) (args : List Expr) (site : Nat),
        (evalE st fe).1 = .funcPtr none ∨
          (evalE st fe).1 = .funcPtr (some ∅) →
        exec prog (fuel + 2) db [.icall dst fe args site] st =
          opaqueCall
            { st with diags :=
                st.diags ++ (evalE st fe).2 ++ (evalArgs st args).2 }
            dst (evalArgs st args).1 site) ∧
      (∀ (prog : Program) (fuel db : Nat) (st : AState)
          (dst : Option Location) (fe : Expr) (args : List Expr)
          (site t : Nat),
          (evalE st fe).1 = .funcPtr (some {t}) → prog t = none →
          exec prog (fuel + 2) db [.icall dst fe args site] st =
            opaqueCall
              { st with
                diags := st.diags ++ (evalE st fe).2 ++ (evalArgs st args).2,
                resolved := st.resolved ++ [(site, [t])] }
              dst (evalArgs st args).1 site) ∧
      (∀ st dst vals site,
        Diagnostic.unresolvedIndirectTarget site ∈
          (opaqueCall st dst vals site).diags) ∧
      (∀ st dst vals site, (opaqueCall st dst vals site).ok = st.ok) ∧
      (∀ st (d : Location) vals site,
        readStore (opaqueCall st (some d) vals site).store d =
          AbstractValue.top) ∧
      (∀ st vals site (l : Location) (i : MemId) (ids : List MemId),
        reachIds st.store (st.store.length + 1) (seedIds vals) = some ids →
        containsKey st.store l = true → locMemId l = some i → i ∈ ids →
        readStore (opaqueCall st none vals site).store l =
          AbstractValue.top) ∧
      ((unmappedResult 3).resolved = [(1, [50]), (1, [51])] ∧
        Diagnostic.unresolvedIndirectTarget 1 ∈ (unmappedResult 3).diags ∧
        (unmappedResult 3).ok = true ∧
        (unmappedResult 3).retVal = AbstractValue.top) := by
  refine ⟨?_, ?_, ?_, ?_, ?_, ?_, by decide, by decide, by decide, by decide⟩
  · intro prog fuel db st dst fe args site h
    rcases h with h | h
    · simp only [exec, h]
    · simp only [exec, h, fsList_empty]
  · intro prog fuel db st dst fe args site t h hb
    simp only [exec, h, fsList_singleton, List.foldl_nil, hb]
  · intro st dst vals site
    simp [opaqueCall]
  · intro st dst vals site
    rfl
  · intro st d vals site
    simp only [opaqueCall]
    exact readStore_writeStore_self _ d _
  · intro st vals site l i ids hreach hk hi him
    simp only [opaqueCall, hreach]
    exact readStore_map_reach st.store ids l i hk hi him

/-- Witness for C8: a call site whose table lookup resolves to the empty
candidate set is rewritten to the opaque-call model. -/
theorem claim_C8_witness :
    ((evalE initState (.tableE [] (.lit 32 0))).1 = .funcPtr none ∨
      (evalE initState (.tableE [] (.lit 32 0))).1 = .funcPtr (some ∅)) ∧
      exec (fun _ => none) 2 0
          [.icall (some (.reg 0)) (.tableE [] (.lit 32 0)) [] 9] initState =
        opaqueCall
          { initState with diags := initState.diags ++
              (evalE initState (.tableE [] (.lit 32 0))).2 ++
              (evalArgs initState []).2 }
          (some (.reg 0)) (evalArgs initState []).1 9 :=
  ⟨Or.inr (by decide),
    claim_C8_opaque_unresolved_calls.1 (fun _ => none) 0 0 initState
      (some (.reg 0)) (.tableE [] (.lit 32 0)) [] 9 (Or.inr (by decide))⟩

/-- C9: every call chain, including the fixture's unbounded
`recurse`/`run` cycle, terminates: cloning proceeds only up to the
bounded depth, and once the remaining depth is exhausted every deeper
invocation of a callee with a body is redirected to the single shared,
non-cloned, context-insensitive summary (`applySummary`), whose result
is the same for every such call and which reports the cutoff as a
non-fatal `RecursionLimitExceeded` condition; the fixture's analysis
completes (`ok`) with the cutoff recorded. -/
theorem claim_C9_recursion_cutoff :
    (∀ (prog : Program) (fuel : Nat) (st : AState) (dst : Option Location)
        (f : Nat) (args : List Expr) (site : Nat) (body : List Stmt),
        prog f = some body →
        exec prog (fuel + 2) 0 [.call dst f args site] st =
          applySummary
            { st with diags := st.diags ++ (evalArgs st args).2 } dst f) ∧
      (∀ (st : AState) (dst : Option Location) (f : Nat),
        Diagnostic.recursionLimitExceeded f ∈ (applySummary st dst f).diags) ∧
      (unmappedResult 1).ok = true ∧
      Diagnostic.recursionLimitExceeded 52 ∈ (unmappedResult 1).diags := by
  refine ⟨?_, ?_, by decide, by decide⟩
  · intro prog fuel st dst f args site body h
    simp only [exec, h]
  · intro st dst f
    simp [applySummary]

/-- Witness for C9: at exhausted cloning depth, the direct call to the
fixture's `recurse` is redirected to the shared summary. -/
theorem claim_C9_witness :
    progUnmapped 1 52 = some recurseBody ∧
      exec (progUnmapped 1) 2 0 [.call none 52 [] 3] initState =
        applySummary
          { initState with
            diags := initState.diags ++ (evalArgs initState []).2 }
          none 52 :=
  ⟨rfl,
    claim_C9_recursion_cutoff.1 (progUnmapped 1) 0 initState none 52 [] 3
      recurseBody rfl⟩

/-- C10: in the recursion fixture's `run` the recursive path is
concretely dead — for every concrete execution the loop index takes only
the values 0 and 1, the guard `i == 3` is never true, `recurse()` is
never invoked, and `run` terminates after exactly two indirect calls;
the recursion is reachable only in the abstract analysis once the loop
index has been widened to `Top` (unroll bound 1), which is the sole way
the recursion-cutoff behavior is exercised (with an adequate bound the
cutoff never fires). -/
theorem claim_C10_recursion_concretely_dead :
    (∀ oracle : Nat → Nat,
        (runConcrete oracle).indices = [0, 1] ∧
        (runConcrete oracle).recurseCalls = 0 ∧
        (runConcrete oracle).icalls = 2) ∧
      52 ∉ (unmappedResult 3).calls ∧
      Diagnostic.recursionLimitExceeded 52 ∉ (unmappedResult 3).diags ∧
      52 ∈ (unmappedResult 1).calls ∧
      Diagnostic.recursionLimitExceeded 52 ∈ (unmappedResult 1).diags := by
  refine ⟨?_, by decide, by decide, by decide, by decide⟩
  intro oracle
  refine ⟨?_, ?_, ?_⟩ <;> simp [runConcrete, runConcreteLoop]

end Probana

